import Mathlib

/-!
Verification development for the NanoVNA monitoring core (`src/app.py`).

Shallow embedding conventions:
* Python floats are modelled as exact numbers: `ℚ` for the analysis pipeline
  (period detection, fingerprint comparison, history bookkeeping), `ℝ` where
  the code applies transcendental functions (`log10`, `sqrt`, `atan2`).
* The module-global dict `historical_data` (seven parallel lists) becomes the
  structure `HistData`; a dict entry appended per cycle becomes `Sample`.
* Fallible Python code paths (exceptions) are modelled explicitly where they
  are reachable; raw device lines are modelled as already-tokenised numbers.
-/

namespace DrcAten

/-- One history entry: the per-cycle summary appended by `sweep_loop`
(app.py lines 1014-1022), one field per parallel series. -/
structure Sample (α : Type) where
  timestamp : α
  s11_avg : α
  s11_max : α
  s11_min : α
  s21_avg : α
  s21_max : α
  s21_min : α
  deriving DecidableEq, Repr

/-- The module-global `historical_data` dict (app.py lines 85-93): seven
parallel lists keyed `timestamps`, `s11_avg`, `s11_max`, `s11_min`,
`s21_avg`, `s21_max`, `s21_min`. -/
structure HistData (α : Type) where
  timestamps : List α
  s11_avg : List α
  s11_max : List α
  s11_min : List α
  s21_avg : List α
  s21_max : List α
  s21_min : List α
  deriving DecidableEq, Repr

/-- Well-formedness of the buffer: all seven parallel series have equal
length (maintained by `sweep_loop`, which appends to all of them in turn). -/
def HistData.wf {α : Type} (h : HistData α) : Prop :=
  h.s11_avg.length = h.timestamps.length ∧
  h.s11_max.length = h.timestamps.length ∧
  h.s11_min.length = h.timestamps.length ∧
  h.s21_avg.length = h.timestamps.length ∧
  h.s21_max.length = h.timestamps.length ∧
  h.s21_min.length = h.timestamps.length

instance {α : Type} (h : HistData α) : Decidable h.wf := by
  unfold HistData.wf; infer_instance

/-- `MAX_HISTORY_POINTS` (app.py line 94). -/
def MAX_HISTORY_POINTS : Nat := 300

/-- Python `l[-cap:]`: the last `cap` elements of `l` (all of `l` when it is
shorter). -/
def takeLast {α : Type} (cap : Nat) (l : List α) : List α :=
  l.drop (l.length - cap)

/-- One history append as performed by `sweep_loop` (app.py lines 1014-1027):
append the cycle summary to every series, then, if the `timestamps` series
exceeds the capacity, rebind every series to its last `cap` elements. -/
def appendHistory {α : Type} (cap : Nat) (h : HistData α) (s : Sample α) :
    HistData α :=
  let h2 : HistData α :=
    { timestamps := h.timestamps ++ [s.timestamp]
      s11_avg := h.s11_avg ++ [s.s11_avg]
      s11_max := h.s11_max ++ [s.s11_max]
      s11_min := h.s11_min ++ [s.s11_min]
      s21_avg := h.s21_avg ++ [s.s21_avg]
      s21_max := h.s21_max ++ [s.s21_max]
      s21_min := h.s21_min ++ [s.s21_min] }
  if cap < h2.timestamps.length then
    { timestamps := takeLast cap h2.timestamps
      s11_avg := takeLast cap h2.s11_avg
      s11_max := takeLast cap h2.s11_max
      s11_min := takeLast cap h2.s11_min
      s21_avg := takeLast cap h2.s21_avg
      s21_max := takeLast cap h2.s21_max
      s21_min := takeLast cap h2.s21_min }
  else h2

/-- A sequence of acquisition-cycle appends (each one running the
`sweep_loop` append-and-trim step). -/
def extendHist {α : Type} (h : HistData α) (app : List (Sample α)) :
    HistData α :=
  app.foldl (appendHistory MAX_HISTORY_POINTS) h

/-! ### Period detection (`detect_measurement_periods`, app.py lines 603-652) -/

/-- The in-progress period dict while scanning: keys `start_idx`,
`start_time`, `data_points` (app.py lines 622-626). -/
structure OpenPeriod where
  start_idx : Nat
  start_time : ℚ
  data_points : List (Sample ℚ)
  deriving DecidableEq, Repr

/-- A closed measurement period: the open keys plus `end_idx`, `end_time`,
`duration` set when the period is closed (app.py lines 639-641, 647-649). -/
structure MeasurementPeriod where
  start_idx : Nat
  start_time : ℚ
  data_points : List (Sample ℚ)
  end_idx : Nat
  end_time : ℚ
  duration : ℚ
  deriving DecidableEq, Repr

/-- The data-point dict appended for index `i` (app.py lines 627-635):
`timestamp` and `s11_avg` come from the `zip` element, the other four series
are read by index (total `getD`-reads stand for Python indexing, which cannot
go out of range on a well-formed buffer). -/
def sampleAt (h : HistData ℚ) (i : Nat) (t s : ℚ) : Sample ℚ :=
  { timestamp := t
    s11_avg := s
    s11_max := h.s11_max.getD i 0
    s11_min := h.s11_min.getD i 0
    s21_avg := h.s21_avg.getD i 0
    s21_max := h.s21_max.getD i 0
    s21_min := h.s21_min.getD i 0 }

/-- Close an open period with the given end index and end time
(app.py lines 639-641). -/
def closePeriod (p : OpenPeriod) (ei : Nat) (et : ℚ) : MeasurementPeriod :=
  { start_idx := p.start_idx
    start_time := p.start_time
    data_points := p.data_points
    end_idx := ei
    end_time := et
    duration := et - p.start_time }

/-- The scan loop of `detect_measurement_periods` (app.py lines 613-650):
`rest` is the unprocessed suffix of `zip(timestamps, s11_avg)`, `i` the
current index, `cur` the open period. Closed periods are emitted in scan
order (the Python code appends them to an accumulator list, which yields the
same chronologically ordered output). -/
def detectGo (h : HistData ℚ) (thr : ℚ) (mind : Nat) :
    List (ℚ × ℚ) → Nat → Option OpenPeriod → List MeasurementPeriod
  | [], _, cur =>
    -- handle last period (app.py lines 646-650)
    match cur with
    | none => []
    | some p =>
      if mind ≤ p.data_points.length then
        [closePeriod p (h.timestamps.length - 1) (h.timestamps.getLastD 0)]
      else []
  | (t, s) :: rest, i, cur =>
    if s < thr then
      -- below threshold = measuring (app.py line 617)
      let p : OpenPeriod := match cur with
        | none => ⟨i, t, []⟩
        | some p => p
      detectGo h thr mind rest (i + 1)
        (some ⟨p.start_idx, p.start_time, p.data_points ++ [sampleAt h i t s]⟩)
    else
      match cur with
      | some p =>
        if mind ≤ p.data_points.length then
          closePeriod p (i - 1) (h.timestamps.getD (i - 1) 0) ::
            detectGo h thr mind rest (i + 1) none
        else detectGo h thr mind rest (i + 1) none
      | none => detectGo h thr mind rest (i + 1) none

/-- `detect_measurement_periods` (app.py lines 603-652): guard on fewer than
`min_duration` samples, then scan `zip(timestamps, s11_avg)`. -/
def detect_measurement_periods (h : HistData ℚ) (thr : ℚ := -8)
    (mind : Nat := 5) : List MeasurementPeriod :=
  if h.timestamps = [] ∨ h.timestamps.length < mind then []
  else detectGo h thr mind (h.timestamps.zip h.s11_avg) 0 none

/-! ### Specification side for C1: maximal measuring runs

`runSpans bs i` lists the `(start, length)` spans of the maximal runs of
consecutive `true` entries of `bs`, with `i` the absolute index of the head
of `bs`. The head run of each span is carved out with `takeWhile`, which
makes maximality structurally evident. -/

def runSpans : List Bool → Nat → List (Nat × Nat)
  | [], _ => []
  | false :: l, i => runSpans l (i + 1)
  | true :: l, i =>
    let k := (l.takeWhile id).length + 1
    (i, k) :: runSpans (l.dropWhile id) (i + k)
termination_by l _ => l.length
decreasing_by
  · simp only [List.length_cons]
    omega
  · have hd : (l.dropWhile id).length ≤ l.length :=
      (List.dropWhile_sublist id).length_le
    simp only [List.length_cons]
    omega

/-- The measuring mask of an `s11_avg` series at a threshold
(app.py line 617). -/
def measMap (thr : ℚ) (s11 : List ℚ) : List Bool :=
  s11.map (fun s => decide (s < thr))

/-- The window of samples at indices `a`, `a+1`, …, `a+k-1` of a buffer. -/
def window (h : HistData ℚ) (a k : Nat) : List (Sample ℚ) :=
  (List.range k).map (fun j =>
    sampleAt h (a + j) (h.timestamps.getD (a + j) 0) (h.s11_avg.getD (a + j) 0))

/-- The measurement period determined by a span `(a, k)` of the buffer. -/
def mkPeriod (h : HistData ℚ) (r : Nat × Nat) : MeasurementPeriod :=
  { start_idx := r.1
    start_time := h.timestamps.getD r.1 0
    data_points := window h r.1 r.2
    end_idx := r.1 + r.2 - 1
    end_time := h.timestamps.getD (r.1 + r.2 - 1) 0
    duration := h.timestamps.getD (r.1 + r.2 - 1) 0 - h.timestamps.getD r.1 0 }

/-! ### Live-reference analysis (`handle_analyze_measurements`, app.py 1250-1268)

`handle_analyze_measurements` passes the module-global `historical_data`
dict itself to `detect_measurement_periods` — no copy is taken.  The
acquisition thread (`sweep_loop`) appends to the very same list objects, and
a Python list iterator (here: the `zip` iterator inside the detector)
observes elements appended behind its current position.  `analyzeLive`
models the interleaving in which the appends of `app` land after the
detector's initial length guard has run but before its scan reaches the end
of the series (buffer below capacity, so appends mutate the lists in place):
the guard sees the request-time buffer `h₀`, the scan traverses the extended
series. -/

def analyzeLive (h₀ : HistData ℚ) (app : List (Sample ℚ)) (thr : ℚ)
    (mind : Nat) : List MeasurementPeriod :=
  if h₀.timestamps = [] ∨ h₀.timestamps.length < mind then []
  else
    let hext := extendHist h₀ app
    detectGo hext thr mind (hext.timestamps.zip hext.s11_avg) 0 none

/-! ### Fingerprint comparison (`compare_measurements`, app.py lines 701-748) -/

/-- The fingerprint dict built by `calculate_period_fingerprint`
(app.py lines 680-693). -/
structure Fingerprint where
  duration : ℚ
  num_points : Nat
  s11_rms : ℚ
  s21_rms : ℚ
  s11_std : ℚ
  s21_std : ℚ
  s11_range : ℚ
  s21_range : ℚ
  s11_min : ℚ
  s11_max : ℚ
  s21_min : ℚ
  s21_max : ℚ
  deriving DecidableEq, Repr, Inhabited

/-- The comparison dict emitted per pair (app.py lines 735-746). -/
structure SimilarityResult where
  period_1 : Nat
  period_2 : Nat
  similarity : ℚ
  is_same : Bool
  s11_rms_1 : ℚ
  s11_rms_2 : ℚ
  s21_rms_1 : ℚ
  s21_rms_2 : ℚ
  s11_diff : ℚ
  s21_diff : ℚ
  deriving DecidableEq, Repr

/-- Round half to even on ℚ (the tie-breaking used by Python `round`). -/
def rhe (q : ℚ) : ℤ :=
  if q - ⌊q⌋ < 1 / 2 then ⌊q⌋
  else if 1 / 2 < q - ⌊q⌋ then ⌊q⌋ + 1
  else if 2 ∣ ⌊q⌋ then ⌊q⌋ else ⌊q⌋ + 1

/-- Python `round(q, d)`: round to `d` decimal places, ties to even. -/
def roundTo (d : Nat) (q : ℚ) : ℚ :=
  (rhe (q * 10 ^ d) : ℚ) / 10 ^ d

/-- The overall similarity of two fingerprints (app.py lines 721-733). -/
def overallSimilarity (fp1 fp2 : Fingerprint) : ℚ :=
  let s11_diff := |fp1.s11_rms - fp2.s11_rms|
  let s21_diff := |fp1.s21_rms - fp2.s21_rms|
  let std_diff := |fp1.s11_std - fp2.s11_std|
  let s11_similarity := max 0 (100 - s11_diff * 10)
  let s21_similarity := max 0 (100 - s21_diff * 10)
  let std_similarity := max 0 (100 - std_diff * 20)
  s11_similarity * (4 / 10) + s21_similarity * (4 / 10) +
    std_similarity * (2 / 10)

/-- The comparison record for fingerprints at positions `i < j`
(app.py lines 735-746): `is_same` is decided on the unrounded overall
similarity, the reported `similarity` is rounded to one decimal. -/
def mkComparison (i j : Nat) (fp1 fp2 : Fingerprint) : SimilarityResult :=
  { period_1 := i + 1
    period_2 := j + 1
    similarity := roundTo 1 (overallSimilarity fp1 fp2)
    is_same := decide (85 < overallSimilarity fp1 fp2)
    s11_rms_1 := roundTo 2 fp1.s11_rms
    s11_rms_2 := roundTo 2 fp2.s11_rms
    s21_rms_1 := roundTo 2 fp1.s21_rms
    s21_rms_2 := roundTo 2 fp2.s21_rms
    s11_diff := roundTo 2 |fp1.s11_rms - fp2.s11_rms|
    s21_diff := roundTo 2 |fp1.s21_rms - fp2.s21_rms| }

/-- The pairwise loop of `compare_measurements` (app.py lines 712-748): the
guard on fewer than two fingerprints, then one comparison per index pair
`(i, j)` with `i < j`, `j` ranging over `range(i+1, len(fingerprints))`. -/
def compare_fingerprints (fps : List Fingerprint) : List SimilarityResult :=
  if fps.length < 2 then []
  else
    (List.range fps.length).flatMap (fun i =>
      ((List.range fps.length).drop (i + 1)).map (fun j =>
        mkComparison i j (fps.getD i default) (fps.getD j default)))

/-- The index pairs `(i, j)`, `i < j < n`, in the enumeration order of the
double loop. -/
def pairsLex (n : Nat) : List (Nat × Nat) :=
  (List.range n).flatMap (fun i =>
    ((List.range n).drop (i + 1)).map (fun j => (i, j)))

/-- Lexicographic order on index pairs: the enumeration order of the nested
comparison loops. -/
def lexLt (p q : Nat × Nat) : Prop :=
  p.1 < q.1 ∨ (p.1 = q.1 ∧ p.2 < q.2)

/-! ### The S21 retry loop (`sweep_loop`, app.py lines 830-885) -/

/-- A device response line, already tokenised into the numbers Python's
`float(parts[k])` would produce (`line.split()` then `float`). -/
abbrev Line : Type := List ℚ

/-- First-point delta between the S11 lines and a candidate S21 reading
(app.py lines 862-872): sum of the absolute differences of the real and
imaginary tokens of the first line of each. -/
def firstPointDiff (s11 s21 : List Line) : ℚ :=
  let p1 := s11.headD []
  let p2 := s21.headD []
  |p1.getD 0 0 - p2.getD 0 0| + |p1.getD 1 0 - p2.getD 1 0|

/-- The accept decision for a truncated S21 reading (app.py lines 860-882):
when both first lines exist and carry at least two tokens, accept only if
the first-point delta exceeds 0.01; in every other case the code falls
through to the unconditional `break`, accepting the reading. -/
def s21Accept (s11 : List Line) (tr : List Line) : Bool :=
  if 0 < s11.length ∧ 0 < tr.length then
    if 2 ≤ (s11.headD []).length ∧ 2 ≤ (tr.headD []).length then
      decide (1 / 100 < firstPointDiff s11 tr)
    else true
  else true

/-- The S21 attempt loop body (app.py lines 835-885): each element of
`resps` is the (already echo-filtered) line list one read attempt yields;
`cur` is the current value of the `lines_s21` variable.  A reading with at
least `pts` lines is truncated to `pts` lines and kept; it is accepted
(`break`) unless the stale/duplicate check rejects it, in which case the
loop retries with `lines_s21` still holding the truncated reading.  A short
reading is kept untruncated and the loop retries. -/
def s21ReadGo (pts : Nat) (s11 : List Line) :
    List (List Line) → List Line → List Line
  | [], cur => cur
  | resp :: rest, _cur =>
    if pts ≤ resp.length then
      let tr := resp.take pts
      if s21Accept s11 tr then tr
      else s21ReadGo pts s11 rest tr
    else s21ReadGo pts s11 rest resp
  termination_by resps _ => resps.length

/-- The S21 read phase: `for attempt in range(max_attempts)` with
`max_attempts = 5` (app.py lines 833-885), starting from `lines_s21 = []`.
`resps` is the stream of responses successive read attempts would yield; the
loop consumes at most the first five. -/
def readS21 (pts : Nat) (s11 : List Line) (resps : List (List Line)) :
    List Line :=
  s21ReadGo pts s11 (resps.take 5) []

/-- The expected remaining output of the detector scan, as run spans: with
no open period, the maximal runs of the unscanned suffix; with an open
period of `c` accumulated points starting at `start_idx`, the same with the
open run prepended (`c` `true`s), so that the first span starts at
`start_idx`. -/
def spanCont (h : HistData ℚ) (thr : ℚ) (i : Nat) :
    Option OpenPeriod → List (Nat × Nat)
  | none => runSpans ((measMap thr h.s11_avg).drop i) i
  | some p =>
    runSpans
      (List.replicate p.data_points.length true ++
        (measMap thr h.s11_avg).drop i)
      p.start_idx

/-- Invariant of the open period while the scan sits at index `i`: it holds
at least one point, its points are exactly the samples of the window ending
just before `i`, and its start time is the timestamp at its start index. -/
def OpenInv (h : HistData ℚ) (i : Nat) : Option OpenPeriod → Prop
  | none => True
  | some p =>
    1 ≤ p.data_points.length ∧
    p.start_idx + p.data_points.length = i ∧
    p.start_time = h.timestamps.getD p.start_idx 0 ∧
    p.data_points = window h p.start_idx p.data_points.length

/-- A maximal `true`-run of the mask `bs`, as a `(start, length)` span:
every index in the window is `true`, the element before the window (if any)
is `false`, and the element after the window (if any) is `false`. -/
def IsMaxRunSpan (bs : List Bool) (a k : Nat) : Prop :=
  1 ≤ k ∧ a + k ≤ bs.length ∧
  (∀ j, j < k → bs.getD (a + j) false = true) ∧
  (a = 0 ∨ bs.getD (a - 1) false = false) ∧
  (a + k = bs.length ∨ bs.getD (a + k) false = false)

/-- Sample `i` of the buffer is measuring: its `s11_avg` is strictly below
the threshold (app.py line 617). -/
def Measuring (h : HistData ℚ) (thr : ℚ) (i : Nat) : Prop :=
  h.s11_avg.getD i 0 < thr

/-- Indices `a..b` form a maximal run of consecutive measuring samples of
the buffer. -/
def IsMaxRun (h : HistData ℚ) (thr : ℚ) (a b : Nat) : Prop :=
  a ≤ b ∧ b < h.timestamps.length ∧
  (∀ i, a ≤ i → i ≤ b → Measuring h thr i) ∧
  (a = 0 ∨ ¬Measuring h thr (a - 1)) ∧
  (b + 1 = h.timestamps.length ∨ ¬Measuring h thr (b + 1))

/-! ### Sweep acquisition and processing (`sweep_loop`, app.py 779-1045)

Floats become `ℝ` here because the code applies `log10`, `sqrt` and
`atan2`. All definitions in this block are therefore noncomputable; the
concrete facts about them are proved with `norm_num`/`simp` instead of
evaluation. -/

section
open Classical

/-- `POINTS` (app.py line 61). -/
def POINTS : Nat := 101

/-- `START_FREQ` in Hz (app.py line 59). -/
noncomputable def START_FREQ : ℝ := 0.9e9

/-- `STOP_FREQ` in Hz (app.py line 60). -/
noncomputable def STOP_FREQ : ℝ := 0.95e9

/-- Python `math.atan2(y, x)`: the angle of the point `(x, y)`, by sign
cases (the `x = 0` column returns `±π/2` or `0`). -/
noncomputable def atan2 (y x : ℝ) : ℝ :=
  if 0 < x then Real.arctan (y / x)
  else if x < 0 then
    (if 0 ≤ y then Real.arctan (y / x) + Real.pi
     else Real.arctan (y / x) - Real.pi)
  else
    (if 0 < y then Real.pi / 2
     else if y < 0 then -(Real.pi / 2)
     else 0)

/-- One parsed sweep point dict (app.py lines 916-923). -/
structure SweepPoint where
  frequency : ℝ
  magnitude : ℝ
  db : ℝ
  phase : ℝ
  real : ℝ
  imag : ℝ

/-- The point built from a parsed "real imag" line at line index `i`
(app.py lines 908-923): `magnitude = (real² + imag²)^0.5` (= the square
root, both operands being nonnegative), `db = 20·log10(magnitude)` when the
magnitude is positive and the `−999` sentinel otherwise (no exception), and
`phase = math.degrees(math.atan2(imag, real)) = atan2·180/π`. -/
noncomputable def mkSweepPoint (i : Nat) (real imag : ℝ) : SweepPoint :=
  let magnitude := Real.sqrt (real ^ 2 + imag ^ 2)
  { frequency := START_FREQ / 1e9 +
      ((i : ℝ) * (STOP_FREQ - START_FREQ) / ((POINTS : ℝ) - 1)) / 1e9
    magnitude := magnitude
    db := if 0 < magnitude then 20 * Real.logb 10 magnitude else -999
    phase := atan2 imag real * 180 / Real.pi
    real := real
    imag := imag }

/-- The linear-power mean of a dB series: each value converted by
`10^(db/10)`, then arithmetically averaged (app.py lines 660-661, 571-572). -/
noncomputable def meanLinear (l : List ℝ) : ℝ :=
  (l.map (fun db => (10 : ℝ) ^ (db / 10))).sum / l.length

/-- `calculate_rms_from_values` (app.py lines 655-664): 0 for the empty
list, otherwise `10·log10` of the linear mean, with `−100` when that mean
is not positive. The `except` branch is unreachable in the real model. -/
noncomputable def calculate_rms_from_values (l : List ℝ) : ℝ :=
  if l = [] then 0
  else if 0 < meanLinear l then 10 * Real.logb 10 (meanLinear l) else -100

/-- `calculate_rms` keyed on `db` (app.py lines 559-578): the same
power-domain RMS over the `db` field of a point list. -/
noncomputable def calculate_rms (points : List SweepPoint) : ℝ :=
  if points = [] then 0
  else
    if 0 < meanLinear (points.map SweepPoint.db) then
      10 * Real.logb 10 (meanLinear (points.map SweepPoint.db))
    else -100

/-- `calculate_signal_quality` (app.py lines 581-600): 0 when the S11 list
is empty or shorter than `POINTS`; otherwise completeness
`(len/POINTS)·40`, RMS-based strength clamped to `[0, 30]`, 30 for a full
S21 list, all clamped to `[0, 100]`. -/
noncomputable def calculate_signal_quality (s11 s21 : List SweepPoint) : ℝ :=
  if s11 = [] ∨ s11.length < POINTS then 0
  else
    let completeness := ((s11.length : ℝ) / (POINTS : ℝ)) * 40
    let s11_rms := calculate_rms s11
    let signal_strength := max 0 (min 30 ((s11_rms + 50) / 50 * 30))
    let s21_quality : ℝ :=
      if s21 ≠ [] ∧ POINTS ≤ s21.length then 30 else 0
    min 100 (max 0 (completeness + signal_strength + s21_quality))

/-- Modelled from the spec (§4.2 of spec.md, the formula claim C3 asserts):
signal quality as the clamp to `[0, 100]` of
`min(40, (points_received/configured_points)·40)`
`+ clamp(0, 30, (s11_rms+50)/50·30)`
`+ (30 if len(s21) ≥ configured_points else 0)`. -/
noncomputable def spec_signal_quality (s11 s21 : List SweepPoint) : ℝ :=
  let completeness := min 40 (((s11.length : ℝ) / (POINTS : ℝ)) * 40)
  let strength := max 0 (min 30 ((calculate_rms s11 + 50) / 50 * 30))
  let s21_presence : ℝ := if POINTS ≤ s21.length then 30 else 0
  min 100 (max 0 (completeness + strength + s21_presence))

/-- Python `max` over a list of floats in the source (always applied to a
non-empty generator); 0 kept as the default for totality. -/
noncomputable def listMaxD (l : List ℝ) : ℝ :=
  l.foldl max (l.headD 0)

/-- Python `min` over a list of floats in the source. -/
noncomputable def listMinD (l : List ℝ) : ℝ :=
  l.foldl min (l.headD 0)

/-- The `data['summary']` dict of an accepted sweep (app.py lines
1002-1010). -/
structure SweepSummary where
  avg_db : ℝ
  max_db : ℝ
  min_db : ℝ
  avg_phase : ℝ
  s21_avg_db : ℝ
  s21_max_db : ℝ
  s21_min_db : ℝ

/-- The summary computed for an accepted sweep (app.py lines 1002-1010):
RMS for the averages, extremes over `db`, arithmetic mean of phases; S21
fields 0 when no S21 data was parsed. -/
noncomputable def mkSummary (s11 s21 : List SweepPoint) : SweepSummary :=
  { avg_db := calculate_rms s11
    max_db := listMaxD (s11.map SweepPoint.db)
    min_db := listMinD (s11.map SweepPoint.db)
    avg_phase := (s11.map SweepPoint.phase).sum / s11.length
    s21_avg_db := if s21 ≠ [] then calculate_rms s21 else 0
    s21_max_db := if s21 ≠ [] then listMaxD (s21.map SweepPoint.db) else 0
    s21_min_db := if s21 ≠ [] then listMinD (s21.map SweepPoint.db) else 0 }

/-- The history entry appended for a summary (app.py lines 1015-1022). -/
def sampleOfSummary (now : ℝ) (s : SweepSummary) : Sample ℝ :=
  ⟨now, s.avg_db, s.max_db, s.min_db, s.s21_avg_db, s.s21_max_db,
    s.s21_min_db⟩

/-- The emit decision of one polling cycle (app.py lines 952-1035): the
signal quality is computed and reported; a sweep result is produced and the
history appended only when the parsed S11 list has exactly `POINTS` points;
otherwise no result is emitted, the history is untouched, and the reported
quality is set to 0. Returns (emitted result, new history, reported
quality). -/
noncomputable def sweep_cycle_emit (now : ℝ) (hist : HistData ℝ)
    (s11 s21 : List SweepPoint) : Option SweepSummary × HistData ℝ × ℝ :=
  let quality := calculate_signal_quality s11 s21
  if s11 ≠ [] ∧ s11.length = POINTS then
    (some (mkSummary s11 s21),
     appendHistory MAX_HISTORY_POINTS hist
       (sampleOfSummary now (mkSummary s11 s21)),
     quality)
  else (none, hist, 0)

end

/-! ### Concrete test vectors -/

/-- The all-zero fingerprint. -/
def fpZero : Fingerprint := ⟨0, 0, 0, 0, 0, 0, 0, 0, 0, 0, 0, 0⟩

/-- A fingerprint whose S11 RMS differs from `fpZero` by 3.74 dB, putting
the pair's overall similarity at 85.04, strictly between 85 and 85.05. -/
def fpShift : Fingerprint := { fpZero with s11_rms := 374 / 100 }

/-- A fingerprint differing from `fpZero` by 15 dB in both S11 RMS and
S21 RMS. -/
def fpFar : Fingerprint := { fpZero with s11_rms := 15, s21_rms := 15 }

/-- A 16-sample history whose `s11_avg` is below −8 dB exactly at indices
5..12. -/
def exHist : HistData ℚ :=
  { timestamps := (List.range 16).map (fun i => (i : ℚ))
    s11_avg := (List.range 16).map (fun i => if 5 ≤ i ∧ i ≤ 12 then (-10 : ℚ) else 0)
    s11_max := List.replicate 16 (1 : ℚ)
    s11_min := List.replicate 16 (-20 : ℚ)
    s21_avg := List.replicate 16 (-30 : ℚ)
    s21_max := List.replicate 16 (-25 : ℚ)
    s21_min := List.replicate 16 (-35 : ℚ) }

/-- The empty history buffer. -/
def emptyHist : HistData ℚ := ⟨[], [], [], [], [], [], []⟩

/-- A 3-sample history, all samples measuring at threshold −8. -/
def shortHist : HistData ℚ :=
  { timestamps := [0, 1, 2]
    s11_avg := [-10, -10, -10]
    s11_max := [0, 0, 0]
    s11_min := [0, 0, 0]
    s21_avg := [0, 0, 0]
    s21_max := [0, 0, 0]
    s21_min := [0, 0, 0] }

/-- A 5-sample history, all samples measuring at threshold −8 (the buffer
the C4 interleaving extends). -/
def fullRunHist : HistData ℚ :=
  { timestamps := [0, 1, 2, 3, 4]
    s11_avg := [-10, -10, -10, -10, -10]
    s11_max := [0, 0, 0, 0, 0]
    s11_min := [0, 0, 0, 0, 0]
    s21_avg := [0, 0, 0, 0, 0]
    s21_max := [0, 0, 0, 0, 0]
    s21_min := [0, 0, 0, 0, 0] }

/-- One more measuring sample, appended concurrently in the C4 scenario. -/
def extraSample : Sample ℚ := ⟨5, -10, 0, 0, 0, 0, 0⟩

/-- A 50-point S11 list (fewer than `POINTS`), each point parsed from the
line `1 0`. -/
noncomputable def pts50 : List SweepPoint :=
  List.replicate 50 (mkSweepPoint 0 1 0)

/-- A complete 101-point S11 list. -/
noncomputable def pts101 : List SweepPoint :=
  List.replicate POINTS (mkSweepPoint 0 1 0)

/-- An empty real-valued history buffer. -/
def emptyHistR : HistData ℝ := ⟨[], [], [], [], [], [], []⟩

/-! ### Helper lemmas: pair enumeration and rounding -/

theorem mem_drop_range {m j n : Nat} : j ∈ (List.range n).drop m ↔ m ≤ j ∧ j < n := by
  constructor
  · intro hj
    obtain ⟨k, hk, he⟩ := List.mem_iff_getElem.1 hj
    have hlen : ((List.range n).drop m).length = n - m := by simp
    have hk2 : m + k < n := by omega
    have hk3 : m + k < (List.range n).length := by simpa using hk2
    have hg : ((List.range n).drop m)[k] = (List.range n)[m + k] := by
      rw [List.getElem_drop]
    rw [hg, List.getElem_range] at he
    omega
  · intro ⟨h1, h2⟩
    refine List.mem_iff_getElem.2 ⟨j - m, by simp; omega, ?_⟩
    have hb1 : j - m < ((List.range n).drop m).length := by simp; omega
    have hb2 : m + (j - m) < (List.range n).length := by simp; omega
    have hg : ((List.range n).drop m)[j - m] =
        (List.range n)[m + (j - m)] := by
      rw [List.getElem_drop]
    rw [hg, List.getElem_range]
    omega

theorem mem_pairsLex {i j n : Nat} : (i, j) ∈ pairsLex n ↔ i < j ∧ j < n := by
  unfold pairsLex
  simp only [List.mem_flatMap, List.mem_map, List.mem_range]
  constructor
  · rintro ⟨a, _, j2, hj2, he⟩
    cases he
    have := mem_drop_range.1 hj2
    omega
  · intro ⟨h1, h2⟩
    exact ⟨i, by omega, j, mem_drop_range.2 ⟨by omega, h2⟩, rfl⟩

theorem pairwise_flatMap_of {α β : Type} (R : β → β → Prop) (S : α → α → Prop)
    (l : List α) (f : α → List β) (hl : l.Pairwise S)
    (hf : ∀ a, (f a).Pairwise R)
    (hcross : ∀ a b, S a b → ∀ x ∈ f a, ∀ y ∈ f b, R x y) :
    (l.flatMap f).Pairwise R := by
  induction l with
  | nil => simp
  | cons a l ih =>
    rw [List.flatMap_cons, List.pairwise_append]
    obtain ⟨hS, hl2⟩ := List.pairwise_cons.1 hl
    refine ⟨hf a, ih hl2, ?_⟩
    intro x hx y hy
    obtain ⟨b, hb, hyb⟩ := List.mem_flatMap.1 hy
    exact hcross a b (hS b hb) x hx y hyb

theorem pairsLex_pairwise (n : Nat) : (pairsLex n).Pairwise lexLt := by
  unfold pairsLex
  apply pairwise_flatMap_of lexLt (· < ·)
  · exact List.pairwise_lt_range n
  · intro a
    rw [List.pairwise_map]
    have hdrop : ((List.range n).drop (a + 1)).Pairwise (· < ·) :=
      (List.pairwise_lt_range n).drop
    exact hdrop.imp (fun hab => Or.inr ⟨rfl, hab⟩)
  · intro a b hab x hx y hy
    obtain ⟨j1, _, rfl⟩ := List.mem_map.1 hx
    obtain ⟨j2, _, rfl⟩ := List.mem_map.1 hy
    exact Or.inl hab

theorem compare_fingerprints_eq (fps : List Fingerprint) :
    compare_fingerprints fps =
      (pairsLex fps.length).map
        (fun p => mkComparison p.1 p.2 (fps.getD p.1 default)
          (fps.getD p.2 default)) := by
  unfold compare_fingerprints pairsLex
  by_cases h : fps.length < 2
  · rw [if_pos h]
    have h0 : fps.length = 0 ∨ fps.length = 1 := by omega
    rcases h0 with h0 | h0 <;> rw [h0] <;> rfl
  · rw [if_neg h, List.map_flatMap]
    simp [List.map_map, Function.comp_def]

theorem overall_nonneg (fp1 fp2 : Fingerprint) :
    0 ≤ overallSimilarity fp1 fp2 := by
  unfold overallSimilarity
  have h1 : (0 : ℚ) ≤ max 0 (100 - |fp1.s11_rms - fp2.s11_rms| * 10) := le_max_left 0 _
  have h2 : (0 : ℚ) ≤ max 0 (100 - |fp1.s21_rms - fp2.s21_rms| * 10) := le_max_left 0 _
  have h3 : (0 : ℚ) ≤ max 0 (100 - |fp1.s11_std - fp2.s11_std| * 20) := le_max_left 0 _
  positivity

theorem max_term_le_100 (d c : ℚ) (hd : 0 ≤ d) (hc : 0 ≤ c) :
    max 0 (100 - d * c) ≤ 100 := by
  apply max_le (by norm_num)
  nlinarith

theorem overall_le_100 (fp1 fp2 : Fingerprint) :
    overallSimilarity fp1 fp2 ≤ 100 := by
  unfold overallSimilarity
  have h1 := max_term_le_100 |fp1.s11_rms - fp2.s11_rms| 10 (abs_nonneg _) (by norm_num)
  have h2 := max_term_le_100 |fp1.s21_rms - fp2.s21_rms| 10 (abs_nonneg _) (by norm_num)
  have h3 := max_term_le_100 |fp1.s11_std - fp2.s11_std| 20 (abs_nonneg _) (by norm_num)
  linarith

theorem rhe_le {q : ℚ} {n : ℤ} (h : q ≤ (n : ℚ)) : rhe q ≤ n := by
  have hfl : ⌊q⌋ ≤ n := by
    have := Int.floor_le_floor h
    simpa using this
  rcases eq_or_lt_of_le hfl with heq | hlt
  · have hq : q = (n : ℚ) := le_antisymm h (by rw [← heq]; exact Int.floor_le q)
    unfold rhe
    rw [hq]
    simp
  · unfold rhe
    split
    · omega
    · split
      · omega
      · split <;> omega

theorem le_rhe {q : ℚ} {n : ℤ} (h : (n : ℚ) ≤ q) : n ≤ rhe q := by
  have hfl : n ≤ ⌊q⌋ := by
    have := Int.le_floor.2 h
    simpa using this
  unfold rhe
  split
  · omega
  · split
    · omega
    · split <;> omega

theorem roundTo_bounds {q : ℚ} (lo hi : ℤ) (d : Nat) (hlo : (lo : ℚ) ≤ q)
    (hhi : q ≤ (hi : ℚ)) :
    (lo : ℚ) ≤ roundTo d q ∧ roundTo d q ≤ (hi : ℚ) := by
  have hp : (0 : ℚ) < 10 ^ d := by positivity
  have h1 : ((lo * 10 ^ d : ℤ) : ℚ) ≤ q * 10 ^ d := by
    push_cast
    exact mul_le_mul_of_nonneg_right hlo (le_of_lt hp)
  have h2 : q * 10 ^ d ≤ ((hi * 10 ^ d : ℤ) : ℚ) := by
    push_cast
    exact mul_le_mul_of_nonneg_right hhi (le_of_lt hp)
  have hl := le_rhe h1
  have hh := rhe_le h2
  unfold roundTo
  constructor
  · rw [le_div_iff₀ hp]
    calc (lo : ℚ) * 10 ^ d = ((lo * 10 ^ d : ℤ) : ℚ) := by push_cast; ring
    _ ≤ (rhe (q * 10 ^ d) : ℚ) := by exact_mod_cast hl
  · rw [div_le_iff₀ hp]
    calc (rhe (q * 10 ^ d) : ℚ) ≤ ((hi * 10 ^ d : ℤ) : ℚ) := by exact_mod_cast hh
    _ = (hi : ℚ) * 10 ^ d := by push_cast; ring

theorem overall_formula (fp1 fp2 : Fingerprint) : overallSimilarity fp1 fp2 =
    (0.4 : ℚ) * max 0 (100 - 10 * |fp1.s11_rms - fp2.s11_rms|)
    + 0.4 * max 0 (100 - 10 * |fp1.s21_rms - fp2.s21_rms|)
    + 0.2 * max 0 (100 - 20 * |fp1.s11_std - fp2.s11_std|) := by
  unfold overallSimilarity
  ring_nf

theorem overall_self (fp : Fingerprint) : overallSimilarity fp fp = 100 := by
  simp [overallSimilarity]
  norm_num

theorem overall_far_bound (fp1 fp2 : Fingerprint)
    (h1 : |fp1.s11_rms - fp2.s11_rms| = 15)
    (h2 : |fp1.s21_rms - fp2.s21_rms| = 15) :
    overallSimilarity fp1 fp2 ≤ 20 := by
  have h3 := max_term_le_100 |fp1.s11_std - fp2.s11_std| 20 (abs_nonneg _)
    (by norm_num)
  unfold overallSimilarity
  rw [h1, h2]
  norm_num
  linarith

/-- C2: `compare_measurements` emits exactly one result per unordered index
pair `(i, j)`, `i < j`, in the enumeration order of the nested loops, the
overall similarity of a pair is
`0.4·max(0, 100 − 10·|ΔS11_rms|) + 0.4·max(0, 100 − 10·|ΔS21_rms|) +
 0.2·max(0, 100 − 20·|Δs11_std|)`, and `is_same` holds iff that value is
strictly greater than 85; fewer than two fingerprints give the empty list.
Identical fingerprints score exactly 100 with `is_same` true, every score
lies in [0, 100], and a pair differing by 15 dB in both S11 RMS and S21 RMS
scores at most 20. -/
theorem C2_compare_measurements_pairwise :
    (∀ fps : List Fingerprint, fps.length < 2 → compare_fingerprints fps = [])
    ∧ (∀ fps : List Fingerprint,
        compare_fingerprints fps =
          (pairsLex fps.length).map (fun p =>
            mkComparison p.1 p.2 (fps.getD p.1 default) (fps.getD p.2 default)))
    ∧ (∀ n i j : Nat, (i, j) ∈ pairsLex n ↔ i < j ∧ j < n)
    ∧ (∀ n : Nat, (pairsLex n).Pairwise lexLt)
    ∧ (∀ fp1 fp2 : Fingerprint, overallSimilarity fp1 fp2 =
        (0.4 : ℚ) * max 0 (100 - 10 * |fp1.s11_rms - fp2.s11_rms|)
        + 0.4 * max 0 (100 - 10 * |fp1.s21_rms - fp2.s21_rms|)
        + 0.2 * max 0 (100 - 20 * |fp1.s11_std - fp2.s11_std|))
    ∧ (∀ (i j : Nat) (fp1 fp2 : Fingerprint),
        (mkComparison i j fp1 fp2).is_same = true ↔
          85 < overallSimilarity fp1 fp2)
    ∧ (∀ fp : Fingerprint, overallSimilarity fp fp = 100)
    ∧ (∀ (i j : Nat) (fp : Fingerprint),
        (mkComparison i j fp fp).similarity = 100 ∧
          (mkComparison i j fp fp).is_same = true)
    ∧ (∀ fp1 fp2 : Fingerprint,
        0 ≤ overallSimilarity fp1 fp2 ∧ overallSimilarity fp1 fp2 ≤ 100)
    ∧ (∀ (i j : Nat) (fp1 fp2 : Fingerprint),
        0 ≤ (mkComparison i j fp1 fp2).similarity ∧
          (mkComparison i j fp1 fp2).similarity ≤ 100)
    ∧ (∀ fp1 fp2 : Fingerprint, |fp1.s11_rms - fp2.s11_rms| = 15 →
        |fp1.s21_rms - fp2.s21_rms| = 15 →
        overallSimilarity fp1 fp2 ≤ 20) := by
  refine ⟨?_, compare_fingerprints_eq, fun n i j => mem_pairsLex,
    pairsLex_pairwise, overall_formula, ?_, overall_self, ?_, ?_, ?_,
    overall_far_bound⟩
  · intro fps h
    unfold compare_fingerprints
    rw [if_pos h]
  · intro i j fp1 fp2
    simp [mkComparison]
  · intro i j fp
    constructor
    · have h : overallSimilarity fp fp = 100 := overall_self fp
      show roundTo 1 (overallSimilarity fp fp) = 100
      rw [h]
      norm_num [roundTo, rhe]
    · show decide (85 < overallSimilarity fp fp) = true
      rw [overall_self fp]
      norm_num
  · intro fp1 fp2
    exact ⟨overall_nonneg fp1 fp2, overall_le_100 fp1 fp2⟩
  · intro i j fp1 fp2
    have hb := roundTo_bounds 0 100 1
      (by exact_mod_cast overall_nonneg fp1 fp2)
      (by exact_mod_cast overall_le_100 fp1 fp2)
    constructor
    · have := hb.1
      show (0 : ℚ) ≤ roundTo 1 (overallSimilarity fp1 fp2)
      exact_mod_cast this
    · have := hb.2
      show roundTo 1 (overallSimilarity fp1 fp2) ≤ (100 : ℚ)
      exact_mod_cast this

/-- Witness for C2 at concrete inputs: the empty fingerprint list compares
to the empty result list, and the 15 dB/15 dB pair scores at most 20. -/
theorem C2_compare_measurements_pairwise_witness :
    compare_fingerprints [] = [] ∧
    ((0, 1) ∈ pairsLex 3 ↔ 0 < 1 ∧ 1 < 3) ∧
    overallSimilarity fpZero fpFar ≤ 20 := by
  obtain ⟨h1, _, h3, _, _, _, _, _, _, _, h11⟩ :=
    C2_compare_measurements_pairwise
  refine ⟨h1 [] (by norm_num), h3 3 0 1, h11 fpZero fpFar ?_ ?_⟩
  · norm_num [fpZero, fpFar]
  · norm_num [fpZero, fpFar]

/-- C10: in every emitted comparison result the `is_same` flag is computed
from the unrounded overall similarity while the reported `similarity` field
is that value rounded to one decimal; a pair whose unrounded similarity is
85.04 (strictly between 85 and 85.05) is reported with similarity exactly
85.0 together with `is_same = true`. -/
theorem C10_rounded_similarity_vs_flag :
    (∀ (fps : List Fingerprint) (r : SimilarityResult),
      r ∈ compare_fingerprints fps →
        ∃ i j : Nat, i < j ∧ j < fps.length ∧
          r = mkComparison i j (fps.getD i default) (fps.getD j default))
    ∧ (∀ (i j : Nat) (fp1 fp2 : Fingerprint),
        (mkComparison i j fp1 fp2).is_same =
          decide (85 < overallSimilarity fp1 fp2)
        ∧ (mkComparison i j fp1 fp2).similarity =
          roundTo 1 (overallSimilarity fp1 fp2))
    ∧ (∃ (fp1 fp2 : Fingerprint) (r : SimilarityResult),
        compare_fingerprints [fp1, fp2] = [r]
        ∧ 85 < overallSimilarity fp1 fp2
        ∧ overallSimilarity fp1 fp2 < 85 + 1 / 20
        ∧ r.similarity = 85 ∧ r.is_same = true) := by
  refine ⟨?_, ?_, fpZero, fpShift, mkComparison 0 1 fpZero fpShift,
    ?_, ?_, ?_, ?_, ?_⟩
  · intro fps r hr
    rw [compare_fingerprints_eq] at hr
    obtain ⟨p, hp, rfl⟩ := List.mem_map.1 hr
    obtain ⟨hij, hj⟩ := mem_pairsLex.1 (by simpa using hp)
    exact ⟨p.1, p.2, hij, hj, rfl⟩
  · intro i j fp1 fp2
    exact ⟨rfl, rfl⟩
  · rw [compare_fingerprints_eq]
    rfl
  · have h : overallSimilarity fpZero fpShift = 2126 / 25 := by
      norm_num [overallSimilarity, fpZero, fpShift, max_def, abs_eq_max_neg]
    rw [h]
    norm_num
  · have h : overallSimilarity fpZero fpShift = 2126 / 25 := by
      norm_num [overallSimilarity, fpZero, fpShift, max_def, abs_eq_max_neg]
    rw [h]
    norm_num
  · show roundTo 1 (overallSimilarity fpZero fpShift) = 85
    have h : overallSimilarity fpZero fpShift = 2126 / 25 := by
      norm_num [overallSimilarity, fpZero, fpShift, max_def, abs_eq_max_neg]
    rw [h]
    norm_num [roundTo, rhe, Int.floor_eq_iff]
  · show decide (85 < overallSimilarity fpZero fpShift) = true
    have h : overallSimilarity fpZero fpShift = 2126 / 25 := by
      norm_num [overallSimilarity, fpZero, fpShift, max_def, abs_eq_max_neg]
    rw [h]
    norm_num

/-- Witness for C10 at a concrete input: the sole result of comparing the
85.04-pair is characterised by the theorem. -/
theorem C10_rounded_similarity_vs_flag_witness :
    ∃ i j : Nat, i < j ∧ j < ([fpZero, fpShift] : List Fingerprint).length ∧
      mkComparison 0 1 fpZero fpShift =
        mkComparison i j (([fpZero, fpShift] : List Fingerprint).getD i default)
          (([fpZero, fpShift] : List Fingerprint).getD j default) := by
  apply C10_rounded_similarity_vs_flag.1 [fpZero, fpShift]
  rw [compare_fingerprints_eq]
  exact List.mem_singleton.2 rfl

/-- C8: after every append of a cycle summary all seven parallel series have
equal length, that length is `min (n+1) 300` and never exceeds 300, and
every series equals the appended series with its oldest `n+1−300` entries
dropped (lock-step FIFO trim, survivors in order). -/
theorem C8_history_append_invariant (h : HistData ℚ) (s : Sample ℚ)
    (hwf : h.wf) :
    (appendHistory MAX_HISTORY_POINTS h s).wf
    ∧ (appendHistory MAX_HISTORY_POINTS h s).timestamps.length =
        min (h.timestamps.length + 1) 300
    ∧ (appendHistory MAX_HISTORY_POINTS h s).timestamps.length ≤ 300
    ∧ (appendHistory MAX_HISTORY_POINTS h s).timestamps =
        (h.timestamps ++ [s.timestamp]).drop (h.timestamps.length + 1 - 300)
    ∧ (appendHistory MAX_HISTORY_POINTS h s).s11_avg =
        (h.s11_avg ++ [s.s11_avg]).drop (h.timestamps.length + 1 - 300)
    ∧ (appendHistory MAX_HISTORY_POINTS h s).s11_max =
        (h.s11_max ++ [s.s11_max]).drop (h.timestamps.length + 1 - 300)
    ∧ (appendHistory MAX_HISTORY_POINTS h s).s11_min =
        (h.s11_min ++ [s.s11_min]).drop (h.timestamps.length + 1 - 300)
    ∧ (appendHistory MAX_HISTORY_POINTS h s).s21_avg =
        (h.s21_avg ++ [s.s21_avg]).drop (h.timestamps.length + 1 - 300)
    ∧ (appendHistory MAX_HISTORY_POINTS h s).s21_max =
        (h.s21_max ++ [s.s21_max]).drop (h.timestamps.length + 1 - 300)
    ∧ (appendHistory MAX_HISTORY_POINTS h s).s21_min =
        (h.s21_min ++ [s.s21_min]).drop (h.timestamps.length + 1 - 300) := by
  obtain ⟨e1, e2, e3, e4, e5, e6⟩ := hwf
  unfold appendHistory takeLast HistData.wf MAX_HISTORY_POINTS
  by_cases hc : 300 < h.timestamps.length + 1
  · rw [if_pos (by simp; omega)]
    simp only [List.length_append, List.length_cons, List.length_nil,
      List.length_drop, e1, e2, e3, e4, e5, e6]
    exact ⟨⟨trivial, trivial, trivial, trivial, trivial, trivial⟩,
      by omega, by omega, trivial, trivial, trivial, trivial, trivial,
      trivial, trivial⟩
  · rw [if_neg (by simp; omega)]
    have hz : h.timestamps.length + 1 - 300 = 0 := by omega
    simp only [List.length_append, List.length_cons, List.length_nil,
      e1, e2, e3, e4, e5, e6, hz, List.drop_zero]
    exact ⟨⟨trivial, trivial, trivial, trivial, trivial, trivial⟩,
      by omega, by omega, trivial, trivial, trivial, trivial, trivial,
      trivial, trivial⟩

/-- Witness for C8 at a concrete input: appending `extraSample` to the
five-entry buffer keeps the invariant. -/
theorem C8_history_append_invariant_witness :
    (appendHistory MAX_HISTORY_POINTS fullRunHist extraSample).wf
    ∧ (appendHistory MAX_HISTORY_POINTS fullRunHist extraSample).timestamps.length =
        min (fullRunHist.timestamps.length + 1) 300 := by
  have h := C8_history_append_invariant fullRunHist extraSample (by decide)
  exact ⟨h.1, h.2.1⟩

theorem s21Accept_false {pts : Nat} {s11 : List Line} {resp : List Line}
    (hpts : 0 < pts) (hlen : pts ≤ resp.length) (hs11 : 0 < s11.length)
    (hh1 : 2 ≤ (s11.headD []).length)
    (hh2 : 2 ≤ ((resp.take pts).headD []).length)
    (hdiff : firstPointDiff s11 (resp.take pts) < 1 / 100) :
    s21Accept s11 (resp.take pts) = false := by
  have htr : 0 < (resp.take pts).length := by
    simp [List.length_take]
    omega
  unfold s21Accept
  rw [if_pos ⟨hs11, htr⟩, if_pos ⟨hh1, hh2⟩]
  simp only [decide_eq_false_iff_not, not_lt]
  linarith

theorem s21ReadGo_all_reject {pts : Nat} {s11 : List Line} :
    ∀ (resps : List (List Line)) (cur : List Line), resps ≠ [] →
    (∀ resp ∈ resps, pts ≤ resp.length ∧
      s21Accept s11 (resp.take pts) = false) →
    s21ReadGo pts s11 resps cur = (resps.getLastD []).take pts := by
  intro resps
  induction resps with
  | nil => intro cur hne _; exact absurd rfl hne
  | cons r rest ih =>
    intro cur _ hall
    obtain ⟨hr1, hr2⟩ := hall r (List.mem_cons_self r rest)
    unfold s21ReadGo
    rw [if_pos hr1, if_neg (by rw [hr2]; exact Bool.false_ne_true)]
    cases rest with
    | nil =>
      unfold s21ReadGo
      simp
    | cons r2 rest2 =>
      rw [ih (r.take pts) (by simp)
        (fun resp hresp => hall resp (List.mem_cons_of_mem r hresp))]
      simp

/-- C9: the trace-1 read loop consults at most its first five attempts (and
terminates, being a total function of them); if every one of those attempts
returns at least `pts` lines whose first point differs from trace 0's first
point by strictly less than 0.01 (so the stale/duplicate check keeps
rejecting), the loop ends with the last attempt's truncated reading instead
of blocking. -/
theorem C9_s21_retry_bounded :
    (∀ (pts : Nat) (s11 : List Line) (r1 r2 : List (List Line)),
      r1.take 5 = r2.take 5 → readS21 pts s11 r1 = readS21 pts s11 r2)
    ∧ (∀ (pts : Nat) (s11 : List Line) (resps : List (List Line)),
        0 < pts → resps.take 5 ≠ [] →
        (∀ resp ∈ resps.take 5, pts ≤ resp.length ∧
          0 < s11.length ∧ 2 ≤ (s11.headD []).length ∧
          2 ≤ ((resp.take pts).headD []).length ∧
          firstPointDiff s11 (resp.take pts) < 1 / 100) →
        readS21 pts s11 resps = ((resps.take 5).getLastD []).take pts) := by
  constructor
  · intro pts s11 r1 r2 hagree
    unfold readS21
    rw [hagree]
  · intro pts s11 resps hpts hne hall
    unfold readS21
    apply s21ReadGo_all_reject (resps.take 5) [] hne
    intro resp hresp
    obtain ⟨h1, h2, h3, h4, h5⟩ := hall resp hresp
    exact ⟨h1, s21Accept_false hpts h1 h2 h3 h4 h5⟩

/-- Witness for C9 at a concrete input: five attempts whose first point
matches trace 0's first point exactly all get rejected, and the loop returns
the fifth attempt's truncated reading. -/
theorem C9_s21_retry_bounded_witness :
    readS21 2 [[1, 0]]
      [[[1, 0], [9, 9], [8, 8]], [[1, 0], [8, 8]], [[1, 0], [7, 7]],
        [[1, 0], [6, 6]], [[1, 0], [5, 5]], [[99, 0], [1, 1]]] =
      [[1, 0], [5, 5]] := by
  have h := C9_s21_retry_bounded.2 2 [[1, 0]]
    [[[1, 0], [9, 9], [8, 8]], [[1, 0], [8, 8]], [[1, 0], [7, 7]],
      [[1, 0], [6, 6]], [[1, 0], [5, 5]], [[99, 0], [1, 1]]]
    (by norm_num) (by simp) ?_
  · rw [h]
    rfl
  · intro resp hresp
    fin_cases hresp <;>
      refine ⟨by norm_num, by norm_num, by norm_num, by norm_num, ?_⟩ <;>
      norm_num [firstPointDiff]

theorem appendHistory_ts_len {α : Type} (h : HistData α) (s : Sample α) :
    (appendHistory MAX_HISTORY_POINTS h s).timestamps.length =
      min (h.timestamps.length + 1) 300 := by
  unfold appendHistory takeLast MAX_HISTORY_POINTS
  by_cases hc : 300 < h.timestamps.length + 1
  · rw [if_pos (by simp; omega)]
    simp only [List.length_drop, List.length_append, List.length_cons,
      List.length_nil]
    omega
  · rw [if_neg (by simp; omega)]
    simp only [List.length_append, List.length_cons, List.length_nil]
    omega

theorem extendHist_len_ge (m : Nat) :
    ∀ (app : List (Sample ℚ)) (h₀ : HistData ℚ),
    m ≤ h₀.timestamps.length → h₀.timestamps.length ≤ 300 →
    m ≤ (extendHist h₀ app).timestamps.length ∧
      (extendHist h₀ app).timestamps.length ≤ 300 := by
  intro app
  induction app with
  | nil => intro h₀ hm hcap; exact ⟨hm, hcap⟩
  | cons s app ih =>
    intro h₀ hm hcap
    have hstep := appendHistory_ts_len h₀ s
    have hm2 : m ≤ (appendHistory MAX_HISTORY_POINTS h₀ s).timestamps.length := by
      omega
    have hcap2 : (appendHistory MAX_HISTORY_POINTS h₀ s).timestamps.length ≤ 300 := by
      omega
    have he : extendHist h₀ (s :: app) =
        extendHist (appendHistory MAX_HISTORY_POINTS h₀ s) app := rfl
    rw [he]
    exact ih _ hm2 hcap2

/-- C4 counterexample: on a five-sample buffer whose samples are all
measuring, an append of one more measuring sample performed by the
acquisition loop while the analysis is scanning changes the analysis result
(the detected period grows from indices 0..4 to 0..5), so the analysis does
not behave as if it had read a point-in-time copy. -/
theorem C4_counterexample_live_append_changes_analysis :
    analyzeLive fullRunHist [extraSample] (-8) 5 ≠
      detect_measurement_periods fullRunHist (-8) 5 := by
  decide

/-- C4 as amended: `handle_analyze_measurements` hands the live
`historical_data` dict to the detector (no copy is taken), so appends landing
during the scan are observed: the live analysis equals the snapshot analysis
of the buffer extended by those appends, not of the request-time buffer. -/
theorem C4_amended_live_analysis (h₀ : HistData ℚ) (app : List (Sample ℚ))
    (thr : ℚ) (mind : Nat) (hne : h₀.timestamps ≠ [])
    (hmind : mind ≤ h₀.timestamps.length)
    (hcap : h₀.timestamps.length ≤ 300) :
    analyzeLive h₀ app thr mind =
      detect_measurement_periods (extendHist h₀ app) thr mind := by
  have hlen0 : 1 ≤ h₀.timestamps.length :=
    List.length_pos.2 hne
  have hb1 := extendHist_len_ge 1 app h₀ hlen0 hcap
  have hb2 := extendHist_len_ge mind app h₀ hmind hcap
  unfold analyzeLive detect_measurement_periods
  rw [if_neg (by
    push_neg
    exact ⟨hne, by omega⟩)]
  rw [if_neg (by
    push_neg
    refine ⟨?_, by omega⟩
    have : 0 < (extendHist h₀ app).timestamps.length := by omega
    exact List.ne_nil_of_length_pos this)]

/-- Witness for the amended C4 theorem at a concrete input. -/
theorem C4_amended_live_analysis_witness :
    analyzeLive fullRunHist [extraSample] (-8) 5 =
      detect_measurement_periods (extendHist fullRunHist [extraSample])
        (-8) 5 :=
  C4_amended_live_analysis fullRunHist [extraSample] (-8) 5
    (by decide) (by decide) (by decide)

/-! ### C1: run-span machinery -/

theorem getD_drop_bool (l : List Bool) (n m : Nat) :
    (l.drop n).getD m false = l.getD (n + m) false := by
  rw [List.getD_eq_getElem?_getD, List.getD_eq_getElem?_getD,
    List.getElem?_drop]

theorem measMap_getD (thr : ℚ) (s11 : List ℚ) {j : Nat} (hj : j < s11.length) :
    (measMap thr s11).getD j false = decide (s11.getD j 0 < thr) := by
  unfold measMap
  rw [List.getD_eq_getElem?_getD, List.getElem?_map,
    List.getD_eq_getElem?_getD, List.getElem?_eq_getElem hj]
  simp

theorem measMap_length (thr : ℚ) (s11 : List ℚ) :
    (measMap thr s11).length = s11.length := by
  unfold measMap
  simp

theorem tw_le (l : List Bool) : (l.takeWhile id).length ≤ l.length := by
  induction l with
  | nil => simp
  | cons a l ih =>
    cases a with
    | false => simp [List.takeWhile_cons_of_neg]
    | true =>
      rw [List.takeWhile_cons_of_pos (by simp)]
      simpa using ih

theorem tw_all {l : List Bool} : ∀ {m : Nat},
    m < (l.takeWhile id).length → l.getD m false = true := by
  induction l with
  | nil => intro m hm; simp at hm
  | cons a l ih =>
    intro m hm
    cases a with
    | false => rw [List.takeWhile_cons_of_neg (by simp)] at hm; simp at hm
    | true =>
      rw [List.takeWhile_cons_of_pos (by simp)] at hm
      cases m with
      | zero => rfl
      | succ m =>
        rw [List.getD_cons_succ]
        exact ih (by simpa using hm)

theorem tw_after {l : List Bool}
    (h : (l.takeWhile id).length < l.length) :
    l.getD (l.takeWhile id).length false = false := by
  induction l with
  | nil => simp at h
  | cons a l ih =>
    cases a with
    | false => rw [List.takeWhile_cons_of_neg (by simp)]; rfl
    | true =>
      rw [List.takeWhile_cons_of_pos (by simp)] at h ⊢
      rw [List.length_cons, List.getD_cons_succ]
      exact ih (by simpa using h)

theorem tw_ge {l : List Bool} : ∀ {c : Nat}, c ≤ l.length →
    (∀ m, m < c → l.getD m false = true) → c ≤ (l.takeWhile id).length := by
  induction l with
  | nil => intro c hc _; simpa using hc
  | cons a l ih =>
    intro c hc hall
    cases c with
    | zero => exact Nat.zero_le _
    | succ c =>
      have ha : a = true := hall 0 (by omega)
      subst ha
      rw [List.takeWhile_cons_of_pos (by simp), List.length_cons]
      have : c ≤ (l.takeWhile id).length := by
        apply ih (by simpa using hc)
        intro m hm
        have := hall (m + 1) (by omega)
        simpa using this
      omega

theorem tw_replicate_append (c : Nat) (l : List Bool) :
    (List.replicate c true ++ l).takeWhile id =
      List.replicate c true ++ l.takeWhile id := by
  induction c with
  | zero => simp
  | succ c ih =>
    rw [List.replicate_succ, List.cons_append,
      List.takeWhile_cons_of_pos (by simp), ih]
    rfl

theorem dw_replicate_append (c : Nat) (l : List Bool) :
    (List.replicate c true ++ l).dropWhile id = l.dropWhile id := by
  induction c with
  | zero => simp
  | succ c ih =>
    rw [List.replicate_succ, List.cons_append,
      List.dropWhile_cons_of_pos (by simp), ih]

theorem dw_eq_drop (l : List Bool) :
    l.dropWhile id = l.drop (l.takeWhile id).length := by
  have h := List.takeWhile_append_dropWhile id l
  calc l.dropWhile id
      = (l.takeWhile id ++ l.dropWhile id).drop (l.takeWhile id).length :=
        (List.drop_left _ _).symm
    _ = l.drop (l.takeWhile id).length := by rw [h]

theorem runSpans_nil (i : Nat) : runSpans [] i = [] := by
  rw [runSpans]

theorem runSpans_false (l : List Bool) (i : Nat) :
    runSpans (false :: l) i = runSpans l (i + 1) := by
  rw [runSpans]

theorem runSpans_true (l : List Bool) (i : Nat) :
    runSpans (true :: l) i =
      (i, (l.takeWhile id).length + 1) ::
        runSpans (l.dropWhile id) (i + ((l.takeWhile id).length + 1)) := by
  rw [runSpans]

theorem runSpans_replicate_append {c : Nat} (hc : 1 ≤ c) (l : List Bool)
    (a : Nat) :
    runSpans (List.replicate c true ++ l) a =
      (a, c + (l.takeWhile id).length) ::
        runSpans (l.dropWhile id) (a + c + (l.takeWhile id).length) := by
  obtain ⟨c2, rfl⟩ : ∃ c2, c = c2 + 1 := ⟨c - 1, by omega⟩
  rw [List.replicate_succ, List.cons_append, runSpans_true,
    tw_replicate_append, dw_replicate_append]
  have h1 : (List.replicate c2 true ++ l.takeWhile id).length + 1 =
      c2 + 1 + (l.takeWhile id).length := by
    simp
    omega
  rw [h1]
  have h2 : a + (c2 + 1 + (l.takeWhile id).length) =
      a + (c2 + 1) + (l.takeWhile id).length := by omega
  rw [h2]

theorem runSpans_replicate {c : Nat} (hc : 1 ≤ c) (a : Nat) :
    runSpans (List.replicate c true) a = [(a, c)] := by
  have h := runSpans_replicate_append hc [] a
  rw [List.append_nil] at h
  rw [h]
  simp [runSpans_nil]

theorem runSpans_bounds (bs : List Bool) (i : Nat) :
    ∀ r ∈ runSpans bs i, i ≤ r.1 ∧ 1 ≤ r.2 ∧ r.1 + r.2 ≤ i + bs.length := by
  induction bs, i using runSpans.induct with
  | case1 i => simp [runSpans_nil]
  | case2 l i ih =>
    intro r hr
    rw [runSpans_false] at hr
    have h := ih r hr
    rw [List.length_cons]
    omega
  | case3 l i k ih =>
    intro r hr
    rw [runSpans_true] at hr
    have htw := tw_le l
    rcases List.mem_cons.1 hr with rfl | hr2
    · refine ⟨le_refl _, by omega, ?_⟩
      rw [List.length_cons]
      omega
    · have h := ih r hr2
      have hdw : (l.dropWhile id).length =
          l.length - (l.takeWhile id).length := by
        rw [dw_eq_drop, List.length_drop]
      rw [List.length_cons]
      omega

theorem runSpans_shift (bs : List Bool) (i : Nat) : ∀ (j : Nat),
    runSpans bs (i + j) = (runSpans bs i).map (fun r => (r.1 + j, r.2)) := by
  induction bs, i using runSpans.induct with
  | case1 i => intro j; simp [runSpans_nil]
  | case2 l i ih =>
    intro j
    rw [runSpans_false]
    have h1 : i + j + 1 = i + 1 + j := by omega
    rw [h1, ih j, runSpans_false]
  | case3 l i k ih =>
    intro j
    rw [runSpans_true, runSpans_true, List.map_cons]
    have hk : k = (l.takeWhile id).length + 1 := rfl
    rw [← hk]
    have h1 : i + j + k = i + k + j := by omega
    rw [h1, ih j]

theorem getD_cons_of_pos (b : Bool) (l : List Bool) {m : Nat} (hm : 0 < m) :
    (b :: l).getD m false = l.getD (m - 1) false := by
  obtain ⟨m2, rfl⟩ : ∃ m2, m = m2 + 1 := ⟨m - 1, by omega⟩
  simp [List.getD_cons_succ]

theorem runSpans_mem_iff_aux : ∀ (n : Nat) (bs : List Bool),
    bs.length ≤ n → ∀ (a k : Nat),
    ((a, k) ∈ runSpans bs 0 ↔ IsMaxRunSpan bs a k) := by
  intro n
  induction n with
  | zero =>
    intro bs hbs a k
    have hnil : bs = [] := List.eq_nil_of_length_eq_zero (by omega)
    subst hnil
    simp only [runSpans_nil, List.not_mem_nil, false_iff, IsMaxRunSpan]
    rintro ⟨h1, h2, -⟩
    simp only [List.length_nil] at h2
    omega
  | succ n ih =>
    intro bs hbs a k
    match bs with
    | [] =>
      simp only [runSpans_nil, List.not_mem_nil, false_iff, IsMaxRunSpan]
      rintro ⟨h1, h2, -⟩
      simp only [List.length_nil] at h2
      omega
    | false :: l =>
      have hl : l.length ≤ n := by
        simp only [List.length_cons] at hbs
        omega
      rw [runSpans_false, show (1 : Nat) = 0 + 1 from rfl,
        runSpans_shift l 0 1]
      constructor
      · intro hmem
        obtain ⟨⟨a0, k0⟩, hr, he⟩ := List.mem_map.1 hmem
        simp only [Prod.mk.injEq] at he
        obtain ⟨ha, hk⟩ := he
        subst ha
        subst hk
        obtain ⟨hk1, hk2, hwin, hleft, hright⟩ := (ih l hl a0 k0).1 hr
        refine ⟨hk1, by simp only [List.length_cons]; omega, ?_, ?_, ?_⟩
        · intro j hj
          rw [getD_cons_of_pos false l (by omega),
            show a0 + 1 + j - 1 = a0 + j from by omega]
          exact hwin j hj
        · right
          rcases Nat.eq_zero_or_pos a0 with h0 | hpos
          · subst h0
            rfl
          · rw [show a0 + 1 - 1 = a0 from by omega,
              getD_cons_of_pos false l hpos]
            rcases hleft with h0 | hprev
            · omega
            · exact hprev
        · rcases hright with hend | hnext
          · left
            simp only [List.length_cons]
            omega
          · right
            rw [getD_cons_of_pos false l (by omega),
              show a0 + 1 + k0 - 1 = a0 + k0 from by omega]
            exact hnext
      · rintro ⟨hk1, hk2, hwin, hleft, hright⟩
        have hapos : 0 < a := by
          by_contra h0
          have ha0 : a = 0 := by omega
          have hw0 := hwin 0 (by omega)
          rw [ha0] at hw0
          simp at hw0
        refine List.mem_map.2 ⟨(a - 1, k), ?_, ?_⟩
        · refine (ih l hl (a - 1) k).2 ⟨hk1, ?_, ?_, ?_, ?_⟩
          · simp only [List.length_cons] at hk2
            omega
          · intro j hj
            have hw := hwin j hj
            rw [getD_cons_of_pos false l (by omega),
              show a + j - 1 = a - 1 + j from by omega] at hw
            exact hw
          · rcases Nat.eq_zero_or_pos (a - 1) with h0 | hpos
            · left
              exact h0
            · right
              rcases hleft with h0 | hprev
              · omega
              · rw [getD_cons_of_pos false l (by omega)] at hprev
                exact hprev
          · rcases hright with hend | hnext
            · left
              simp only [List.length_cons] at hend
              omega
            · right
              rw [getD_cons_of_pos false l (by omega),
                show a + k - 1 = a - 1 + k from by omega] at hnext
              exact hnext
        · simp only [Prod.mk.injEq, and_true]
          omega
    | true :: l =>
      have hl : l.length ≤ n := by
        simp only [List.length_cons] at hbs
        omega
      have htw_le := tw_le l
      have hdw_len : (l.dropWhile id).length =
          l.length - (l.takeWhile id).length := by
        rw [dw_eq_drop, List.length_drop]
      have hdw_le : (l.dropWhile id).length ≤ n := by omega
      have hdw_getD : ∀ m, (l.dropWhile id).getD m false =
          l.getD ((l.takeWhile id).length + m) false := by
        intro m
        rw [dw_eq_drop, getD_drop_bool]
      rw [runSpans_true,
        runSpans_shift (l.dropWhile id) 0 ((l.takeWhile id).length + 1)]
      constructor
      · intro hmem
        rcases List.mem_cons.1 hmem with heq | hmem2
        · rw [Prod.mk.injEq] at heq
          obtain ⟨rfl, rfl⟩ := heq
          refine ⟨by omega, by simp only [List.length_cons]; omega, ?_,
            Or.inl rfl, ?_⟩
          · intro j hj
            rcases Nat.eq_zero_or_pos j with h0 | hpos
            · subst h0
              rfl
            · rw [show (0 : Nat) + j = j from by omega,
                getD_cons_of_pos true l hpos]
              exact tw_all (by omega)
          · rcases Nat.lt_or_ge (l.takeWhile id).length l.length
              with hlt | hge
            · right
              rw [show (0 : Nat) + ((l.takeWhile id).length + 1) =
                  (l.takeWhile id).length + 1 from by omega,
                getD_cons_of_pos true l (by omega),
                show (l.takeWhile id).length + 1 - 1 =
                  (l.takeWhile id).length from by omega]
              exact tw_after hlt
            · left
              simp only [List.length_cons]
              omega
        · obtain ⟨⟨a0, k0⟩, hr, he⟩ := List.mem_map.1 hmem2
          simp only [Prod.mk.injEq] at he
          obtain ⟨ha, hk⟩ := he
          subst ha
          subst hk
          obtain ⟨hk1, hk2, hwin, hleft, hright⟩ :=
            (ih (l.dropWhile id) hdw_le a0 k0).1 hr
          have htwlt : (l.takeWhile id).length < l.length := by omega
          have ha0pos : 0 < a0 := by
            by_contra h0
            have hw0 := hwin 0 (by omega)
            rw [show a0 + 0 = (0 : Nat) from by omega, hdw_getD 0,
              show (l.takeWhile id).length + 0 =
                (l.takeWhile id).length from by omega,
              tw_after htwlt] at hw0
            simp at hw0
          have hprev : (l.dropWhile id).getD (a0 - 1) false = false := by
            rcases hleft with h0 | hp
            · omega
            · exact hp
          refine ⟨hk1, by simp only [List.length_cons]; omega, ?_, ?_, ?_⟩
          · intro j hj
            rw [getD_cons_of_pos true l (by omega),
              show a0 + ((l.takeWhile id).length + 1) + j - 1 =
                (l.takeWhile id).length + (a0 + j) from by omega,
              ← hdw_getD (a0 + j)]
            exact hwin j hj
          · right
            rw [getD_cons_of_pos true l (by omega),
              show a0 + ((l.takeWhile id).length + 1) - 1 - 1 =
                (l.takeWhile id).length + (a0 - 1) from by omega,
              ← hdw_getD (a0 - 1)]
            exact hprev
          · rcases hright with hend | hnext
            · left
              simp only [List.length_cons]
              omega
            · right
              rw [getD_cons_of_pos true l (by omega),
                show a0 + ((l.takeWhile id).length + 1) + k0 - 1 =
                  (l.takeWhile id).length + (a0 + k0) from by omega,
                ← hdw_getD (a0 + k0)]
              exact hnext
      · rintro ⟨hk1, hk2, hwin, hleft, hright⟩
        simp only [List.length_cons] at hk2 hright
        by_cases ha : a = 0
        · subst ha
          have hlow : k - 1 ≤ (l.takeWhile id).length := by
            have hcle : k - 1 ≤ l.length := by omega
            apply tw_ge hcle
            intro m hm
            have hw := hwin (m + 1) (by omega)
            rw [show (0 : Nat) + (m + 1) = m + 1 from by omega,
              getD_cons_of_pos true l (by omega),
              show m + 1 - 1 = m from by omega] at hw
            exact hw
          have hhigh : (l.takeWhile id).length ≤ k - 1 := by
            rcases hright with hend | hnext
            · omega
            · rw [show (0 : Nat) + k = k from by omega,
                getD_cons_of_pos true l (by omega)] at hnext
              by_contra hcon
              have hall := @tw_all l (k - 1) (by omega)
              rw [hall] at hnext
              simp at hnext
          have hkK : k = (l.takeWhile id).length + 1 := by omega
          rw [hkK]
          exact List.mem_cons_self _ _
        · have hapos : 0 < a := by omega
          have hprevhead : (true :: l).getD (a - 1) false = false := by
            rcases hleft with h0 | hp
            · omega
            · exact hp
          have ha2 : 2 ≤ a := by
            by_contra hcon
            have ha1 : a = 1 := by omega
            rw [ha1] at hprevhead
            simp at hprevhead
          have hprevl : l.getD (a - 2) false = false := by
            rw [getD_cons_of_pos true l (by omega),
              show a - 1 - 1 = a - 2 from by omega] at hprevhead
            exact hprevhead
          have haK : (l.takeWhile id).length + 1 + 1 ≤ a := by
            by_contra hcon
            have hlt : a - 2 < (l.takeWhile id).length := by omega
            rw [tw_all hlt] at hprevl
            simp at hprevl
          refine List.mem_cons.2 (Or.inr (List.mem_map.2
            ⟨(a - ((l.takeWhile id).length + 1), k), ?_, ?_⟩))
          · apply (ih (l.dropWhile id) hdw_le _ k).2
            refine ⟨hk1, by omega, ?_, ?_, ?_⟩
            · intro j hj
              rw [hdw_getD,
                show (l.takeWhile id).length +
                  (a - ((l.takeWhile id).length + 1) + j) = a - 1 + j
                  from by omega]
              have hw := hwin j hj
              rw [getD_cons_of_pos true l (by omega),
                show a + j - 1 = a - 1 + j from by omega] at hw
              exact hw
            · right
              rw [hdw_getD,
                show (l.takeWhile id).length +
                  (a - ((l.takeWhile id).length + 1) - 1) = a - 2
                  from by omega]
              exact hprevl
            · rcases hright with hend | hnext
              · left
                omega
              · right
                rw [hdw_getD,
                  show (l.takeWhile id).length +
                    (a - ((l.takeWhile id).length + 1) + k) = a + k - 1
                    from by omega]
                rw [getD_cons_of_pos true l (by omega)] at hnext
                exact hnext
          · simp only [Prod.mk.injEq, and_true]
            omega

theorem runSpans_mem_iff (bs : List Bool) (a k : Nat) :
    (a, k) ∈ runSpans bs 0 ↔ IsMaxRunSpan bs a k :=
  runSpans_mem_iff_aux bs.length bs le_rfl a k

theorem runSpans_pairwise (bs : List Bool) (i : Nat) :
    (runSpans bs i).Pairwise (fun r1 r2 => r1.1 + r1.2 ≤ r2.1) := by
  induction bs, i using runSpans.induct with
  | case1 i => simp [runSpans_nil]
  | case2 l i ih =>
    rw [runSpans_false]
    exact ih
  | case3 l i k ih =>
    rw [runSpans_true]
    have hk : k = (l.takeWhile id).length + 1 := rfl
    rw [← hk]
    refine List.pairwise_cons.2 ⟨?_, ih⟩
    intro r hr
    have hb := runSpans_bounds _ _ r hr
    simp only
    omega

theorem getLastD_eq_getD {α : Type} (l : List α) (d : α) :
    l.getLastD d = l.getD (l.length - 1) d := by
  cases l with
  | nil => rfl
  | cons a l =>
    simp [List.getLastD_eq_getLast?, List.getLast?_eq_getElem?,
      List.getD_eq_getElem?_getD]

theorem window_one (h : HistData ℚ) (a : Nat) :
    window h a 1 =
      [sampleAt h a (h.timestamps.getD a 0) (h.s11_avg.getD a 0)] := by
  have h1 : List.range 1 = [0] := rfl
  simp [window, h1]

theorem window_succ (h : HistData ℚ) (a c : Nat) :
    window h a (c + 1) =
      window h a c ++
        [sampleAt h (a + c) (h.timestamps.getD (a + c) 0)
          (h.s11_avg.getD (a + c) 0)] := by
  simp [window, List.range_succ]

theorem window_length (h : HistData ℚ) (a c : Nat) :
    (window h a c).length = c := by
  simp [window]

theorem replicate_append_cons (c : Nat) (l : List Bool) :
    List.replicate c true ++ true :: l =
      List.replicate (c + 1) true ++ l := by
  rw [List.replicate_succ', List.append_assoc]
  rfl

theorem detectGo_nil_none (h : HistData ℚ) (thr : ℚ) (mind : Nat) (i : Nat) :
    detectGo h thr mind [] i none = [] := by
  simp only [detectGo]

theorem detectGo_nil_some (h : HistData ℚ) (thr : ℚ) (mind : Nat) (i : Nat)
    (p : OpenPeriod) :
    detectGo h thr mind [] i (some p) =
      (if mind ≤ p.data_points.length then
        [closePeriod p (h.timestamps.length - 1) (h.timestamps.getLastD 0)]
      else []) := by
  simp only [detectGo]

theorem detectGo_meas_none (h : HistData ℚ) (thr : ℚ) (mind : Nat) (i : Nat)
    (t s : ℚ) (rest : List (ℚ × ℚ)) (hs : s < thr) :
    detectGo h thr mind ((t, s) :: rest) i none =
      detectGo h thr mind rest (i + 1) (some ⟨i, t, [sampleAt h i t s]⟩) := by
  simp only [detectGo]
  rw [if_pos hs]
  simp

theorem detectGo_meas_some (h : HistData ℚ) (thr : ℚ) (mind : Nat) (i : Nat)
    (t s : ℚ) (p : OpenPeriod) (rest : List (ℚ × ℚ)) (hs : s < thr) :
    detectGo h thr mind ((t, s) :: rest) i (some p) =
      detectGo h thr mind rest (i + 1)
        (some ⟨p.start_idx, p.start_time,
          p.data_points ++ [sampleAt h i t s]⟩) := by
  simp only [detectGo]
  rw [if_pos hs]

theorem detectGo_idle_none (h : HistData ℚ) (thr : ℚ) (mind : Nat) (i : Nat)
    (t s : ℚ) (rest : List (ℚ × ℚ)) (hs : ¬s < thr) :
    detectGo h thr mind ((t, s) :: rest) i none =
      detectGo h thr mind rest (i + 1) none := by
  simp only [detectGo]
  rw [if_neg hs]

theorem detectGo_idle_some (h : HistData ℚ) (thr : ℚ) (mind : Nat) (i : Nat)
    (t s : ℚ) (p : OpenPeriod) (rest : List (ℚ × ℚ)) (hs : ¬s < thr) :
    detectGo h thr mind ((t, s) :: rest) i (some p) =
      (if mind ≤ p.data_points.length then
        closePeriod p (i - 1) (h.timestamps.getD (i - 1) 0) ::
          detectGo h thr mind rest (i + 1) none
      else detectGo h thr mind rest (i + 1) none) := by
  simp only [detectGo]
  rw [if_neg hs]

theorem closePeriod_eq_mkPeriod (h : HistData ℚ) (p : OpenPeriod) (ei : Nat)
    (hc3 : p.start_time = h.timestamps.getD p.start_idx 0)
    (hc4 : p.data_points = window h p.start_idx p.data_points.length)
    (hei : ei = p.start_idx + p.data_points.length - 1) :
    closePeriod p ei (h.timestamps.getD ei 0) =
      mkPeriod h (p.start_idx, p.data_points.length) := by
  unfold closePeriod mkPeriod
  simp only [MeasurementPeriod.mk.injEq]
  exact ⟨trivial, hc3, hc4, hei, by rw [hei], by rw [hei, hc3]⟩

theorem detectGo_eq (h : HistData ℚ) (thr : ℚ) (mind : Nat) (hwf : h.wf) :
    ∀ (rest : List (ℚ × ℚ)) (i : Nat) (cur : Option OpenPeriod),
    i + rest.length = h.timestamps.length →
    rest = (h.timestamps.zip h.s11_avg).drop i →
    OpenInv h i cur →
    detectGo h thr mind rest i cur =
      ((spanCont h thr i cur).filter (fun r => mind ≤ r.2)).map
        (mkPeriod h) := by
  intro rest
  induction rest with
  | nil =>
    intro i cur hlen hrest hinv
    have hieq : i = h.timestamps.length := by
      simp only [List.length_nil] at hlen
      omega
    have hbs : (measMap thr h.s11_avg).drop i = [] := by
      apply List.drop_eq_nil_of_le
      rw [measMap_length, hwf.1, hieq]
    cases cur with
    | none =>
      simp only [detectGo_nil_none, spanCont, hbs, runSpans_nil,
        List.filter_nil, List.map_nil]
    | some p =>
      obtain ⟨hc1, hc2, hc3, hc4⟩ := hinv
      rw [detectGo_nil_some, spanCont, hbs, List.append_nil,
        runSpans_replicate hc1]
      have hlast : h.timestamps.getLastD 0 =
          h.timestamps.getD (h.timestamps.length - 1) 0 :=
        getLastD_eq_getD h.timestamps 0
      by_cases hm : mind ≤ p.data_points.length
      · rw [if_pos hm]
        rw [List.filter_cons_of_pos (by simpa using hm), List.filter_nil,
          List.map_cons, List.map_nil]
        have hclose : closePeriod p (h.timestamps.length - 1)
            (h.timestamps.getLastD 0) =
            mkPeriod h (p.start_idx, p.data_points.length) := by
          rw [hlast]
          exact closePeriod_eq_mkPeriod h p (h.timestamps.length - 1)
            hc3 hc4 (by omega)
        rw [hclose]
      · rw [if_neg hm]
        rw [List.filter_cons_of_neg (by simpa using hm), List.filter_nil,
          List.map_nil]
  | cons x rest ih =>
    intro i cur hlen hrest hinv
    obtain ⟨t, s⟩ := x
    have hzlen : (h.timestamps.zip h.s11_avg).length =
        h.timestamps.length := by
      rw [List.length_zip, hwf.1, Nat.min_self]
    have hi : i < h.timestamps.length := by
      simp only [List.length_cons] at hlen
      omega
    have hzi : i < (h.timestamps.zip h.s11_avg).length := by omega
    have hs11len : i < h.s11_avg.length := by
      have := hwf.1
      omega
    have hdx : (h.timestamps.zip h.s11_avg).drop i =
        (h.timestamps.zip h.s11_avg)[i] ::
          (h.timestamps.zip h.s11_avg).drop (i + 1) :=
      List.drop_eq_getElem_cons hzi
    rw [hdx] at hrest
    injection hrest with hix hrest2
    have hzipi : (h.timestamps.zip h.s11_avg)[i] =
        (h.timestamps[i], h.s11_avg[i]) := List.getElem_zip
    rw [hzipi] at hix
    injection hix with hix1 hix2
    have hts : t = h.timestamps.getD i 0 := by
      rw [hix1, List.getD_eq_getElem?_getD, List.getElem?_eq_getElem hi]
      rfl
    have hs11 : s = h.s11_avg.getD i 0 := by
      rw [hix2, List.getD_eq_getElem?_getD, List.getElem?_eq_getElem hs11len]
      rfl
    have hlen2 : i + 1 + rest.length = h.timestamps.length := by
      simp only [List.length_cons] at hlen
      omega
    have hbslen : i < (measMap thr h.s11_avg).length := by
      rw [measMap_length]
      exact hs11len
    have hbs_i : (measMap thr h.s11_avg).drop i =
        decide (s < thr) :: (measMap thr h.s11_avg).drop (i + 1) := by
      have hd : (measMap thr h.s11_avg).drop i =
          (measMap thr h.s11_avg)[i] ::
            (measMap thr h.s11_avg).drop (i + 1) :=
        List.drop_eq_getElem_cons hbslen
      rw [hd]
      congr 1
      have hm : (measMap thr h.s11_avg)[i] =
          decide (h.s11_avg[i] < thr) := by
        simp [measMap]
      rw [hm, hix2]
    by_cases hs : s < thr
    · have hb : decide (s < thr) = true := decide_eq_true hs
      cases cur with
      | none =>
        rw [detectGo_meas_none h thr mind i t s rest hs]
        rw [ih (i + 1) (some ⟨i, t, [sampleAt h i t s]⟩) hlen2 hrest2 ?_]
        · show _ = ((spanCont h thr i none).filter _).map _
          have hsc : spanCont h thr i none =
              spanCont h thr (i + 1) (some ⟨i, t, [sampleAt h i t s]⟩) := by
            simp only [spanCont, hbs_i, hb]
            rfl
          rw [hsc]
        · refine ⟨by simp, by simp, by simpa using hts, ?_⟩
          show [sampleAt h i t s] = window h i 1
          rw [window_one, hts, hs11]
      | some p =>
        obtain ⟨hc1, hc2, hc3, hc4⟩ := hinv
        rw [detectGo_meas_some h thr mind i t s p rest hs]
        rw [ih (i + 1) (some ⟨p.start_idx, p.start_time,
          p.data_points ++ [sampleAt h i t s]⟩) hlen2 hrest2 ?_]
        · show _ = ((spanCont h thr i (some p)).filter _).map _
          have hsc : spanCont h thr i (some p) =
              spanCont h thr (i + 1) (some ⟨p.start_idx, p.start_time,
                p.data_points ++ [sampleAt h i t s]⟩) := by
            simp only [spanCont, hbs_i, hb, List.length_append,
              List.length_cons, List.length_nil]
            rw [replicate_append_cons]
          rw [hsc]
        · refine ⟨by simp, ?_, hc3, ?_⟩
          · show p.start_idx + (p.data_points ++ [sampleAt h i t s]).length =
              i + 1
            simp only [List.length_append, List.length_cons, List.length_nil]
            omega
          · show p.data_points ++ [sampleAt h i t s] =
              window h p.start_idx
                (p.data_points ++ [sampleAt h i t s]).length
            have hlen3 : (p.data_points ++ [sampleAt h i t s]).length =
                p.data_points.length + 1 := by simp
            rw [hlen3, window_succ, ← hc4, hc2, hts, hs11]
    · have hb : decide (s < thr) = false := decide_eq_false hs
      cases cur with
      | none =>
        rw [detectGo_idle_none h thr mind i t s rest hs]
        rw [ih (i + 1) none hlen2 hrest2 trivial]
        have hsc : spanCont h thr i none = spanCont h thr (i + 1) none := by
          simp only [spanCont, hbs_i, hb]
          rw [runSpans_false]
        rw [hsc]
      | some p =>
        obtain ⟨hc1, hc2, hc3, hc4⟩ := hinv
        rw [detectGo_idle_some h thr mind i t s p rest hs]
        have hsc : spanCont h thr i (some p) =
            (p.start_idx, p.data_points.length) ::
              spanCont h thr (i + 1) none := by
          simp only [spanCont, hbs_i, hb]
          rw [runSpans_replicate_append hc1]
          rw [List.takeWhile_cons_of_neg (by simp),
            List.dropWhile_cons_of_neg (by simp)]
          simp only [List.length_nil, Nat.add_zero]
          rw [runSpans_false]
          rw [hc2]
        rw [hsc]
        by_cases hm : mind ≤ p.data_points.length
        · rw [if_pos hm]
          rw [List.filter_cons_of_pos (by simpa using hm), List.map_cons]
          rw [ih (i + 1) none hlen2 hrest2 trivial]
          congr 1
          have hclose : closePeriod p (i - 1)
              (h.timestamps.getD (i - 1) 0) =
              mkPeriod h (p.start_idx, p.data_points.length) :=
            closePeriod_eq_mkPeriod h p (i - 1) hc3 hc4 (by omega)
          rw [hclose]
        · rw [if_neg hm]
          rw [List.filter_cons_of_neg (by simpa using hm)]
          rw [ih (i + 1) none hlen2 hrest2 trivial]

theorem detect_eq_runSpans (h : HistData ℚ) (thr : ℚ) (mind : Nat)
    (hwf : h.wf) :
    detect_measurement_periods h thr mind =
      ((runSpans (measMap thr h.s11_avg) 0).filter
        (fun r => mind ≤ r.2)).map (mkPeriod h) := by
  unfold detect_measurement_periods
  by_cases hg : h.timestamps = [] ∨ h.timestamps.length < mind
  · rw [if_pos hg]
    have hfil : (runSpans (measMap thr h.s11_avg) 0).filter
        (fun r => mind ≤ r.2) = [] := by
      rw [List.filter_eq_nil_iff]
      intro r hr
      have hb := runSpans_bounds _ 0 r hr
      have hlenb : (measMap thr h.s11_avg).length = h.timestamps.length := by
        rw [measMap_length, hwf.1]
      simp only [decide_eq_true_eq]
      rcases hg with hnil | hlt
      · rw [hnil] at hlenb
        simp only [List.length_nil] at hlenb
        omega
      · omega
    rw [hfil]
    rfl
  · rw [if_neg hg]
    push_neg at hg
    obtain ⟨hne, hge⟩ := hg
    have hzlen : (h.timestamps.zip h.s11_avg).length =
        h.timestamps.length := by
      rw [List.length_zip, hwf.1, Nat.min_self]
    have hres := detectGo_eq h thr mind hwf (h.timestamps.zip h.s11_avg) 0
      none (by omega) (by rw [List.drop_zero]) trivial
    rw [hres]
    simp only [spanCont, List.drop_zero]

theorem isMaxRunSpan_iff (h : HistData ℚ) (thr : ℚ) (hwf : h.wf)
    (a k : Nat) (hk : 1 ≤ k) :
    IsMaxRunSpan (measMap thr h.s11_avg) a k ↔
      IsMaxRun h thr a (a + k - 1) := by
  have hlenb : (measMap thr h.s11_avg).length = h.s11_avg.length :=
    measMap_length thr h.s11_avg
  have hlts : h.s11_avg.length = h.timestamps.length := hwf.1
  unfold IsMaxRunSpan IsMaxRun Measuring
  constructor
  · rintro ⟨h1, h2, hwin, hl, hr⟩
    refine ⟨by omega, by omega, ?_, ?_, ?_⟩
    · intro i hi1 hi2
      have hj := hwin (i - a) (by omega)
      rw [show a + (i - a) = i from by omega,
        measMap_getD thr _ (by omega)] at hj
      exact of_decide_eq_true hj
    · rcases hl with h0 | hp
      · left
        exact h0
      · right
        rw [measMap_getD thr _ (by omega)] at hp
        exact of_decide_eq_false hp
    · rcases Nat.eq_or_lt_of_le h2 with heq | hlt
      · left
        omega
      · right
        have hp : (measMap thr h.s11_avg).getD (a + k) false = false := by
          rcases hr with h0 | hp
          · omega
          · exact hp
        rw [measMap_getD thr _ (by omega)] at hp
        have := of_decide_eq_false hp
        rw [show a + k - 1 + 1 = a + k from by omega]
        exact this
  · rintro ⟨h1, h2, hwin, hl, hr⟩
    refine ⟨hk, by omega, ?_, ?_, ?_⟩
    · intro j hj
      rw [measMap_getD thr _ (by omega)]
      exact decide_eq_true (hwin (a + j) (by omega) (by omega))
    · rcases hl with h0 | hnm
      · left
        exact h0
      · right
        rw [measMap_getD thr _ (by omega)]
        exact decide_eq_false hnm
    · rcases Nat.lt_or_ge (a + k) h.s11_avg.length with hlt | hge
      · right
        rw [measMap_getD thr _ (by omega)]
        apply decide_eq_false
        rcases hr with h0 | hnm
        · omega
        · rw [show a + k - 1 + 1 = a + k from by omega] at hnm
          exact hnm
      · left
        omega

/-- C1: under well-formedness of the seven parallel series,
`detect_measurement_periods` returns exactly the maximal runs of
consecutive samples with `s11_avg` strictly below the threshold that hold
at least `min_duration` samples, in chronological order, each period
carrying the samples, timestamps and duration of its run; a snapshot with
fewer than `min_duration` samples yields the empty list; on the
16-sample buffer measuring exactly at indices 5..12 (threshold −8,
`min_duration` 5) it yields exactly one period spanning 5..12, and the
empty and 3-sample buffers yield the empty list. -/
theorem C1_detect_periods_are_maximal_runs :
    (∀ (h : HistData ℚ) (thr : ℚ) (mind : Nat), h.wf →
      ((∀ a b : Nat,
          (∃ p ∈ detect_measurement_periods h thr mind,
            p.start_idx = a ∧ p.end_idx = b) ↔
          (IsMaxRun h thr a b ∧ mind ≤ b + 1 - a))
        ∧ (detect_measurement_periods h thr mind).Pairwise
            (fun p q => p.end_idx < q.start_idx)
        ∧ (∀ p ∈ detect_measurement_periods h thr mind,
            p.start_idx ≤ p.end_idx
            ∧ p.data_points.length = p.end_idx + 1 - p.start_idx
            ∧ p.data_points =
                window h p.start_idx (p.end_idx + 1 - p.start_idx)
            ∧ p.start_time = h.timestamps.getD p.start_idx 0
            ∧ p.end_time = h.timestamps.getD p.end_idx 0
            ∧ p.duration = p.end_time - p.start_time)))
    ∧ (∀ (h : HistData ℚ) (thr : ℚ) (mind : Nat),
        h.timestamps.length < mind →
          detect_measurement_periods h thr mind = [])
    ∧ ((detect_measurement_periods exHist (-8) 5).map
        (fun p => (p.start_idx, p.end_idx, p.data_points.length)) =
        [(5, 12, 8)])
    ∧ detect_measurement_periods emptyHist (-8) 5 = []
    ∧ detect_measurement_periods shortHist (-8) 5 = [] := by
  refine ⟨?_, ?_, by decide, by decide, by decide⟩
  · intro h thr mind hwf
    have heq := detect_eq_runSpans h thr mind hwf
    have hlenb : (measMap thr h.s11_avg).length = h.timestamps.length := by
      rw [measMap_length, hwf.1]
    refine ⟨?_, ?_, ?_⟩
    · intro a b
      rw [heq]
      constructor
      · rintro ⟨p, hp, ha, hb⟩
        obtain ⟨r, hrf, rfl⟩ := List.mem_map.1 hp
        have hrs := List.of_mem_filter hrf
        have hrm := List.mem_of_mem_filter hrf
        have hbnd := runSpans_bounds _ 0 r hrm
        obtain ⟨a0, k0⟩ := r
        have hspan := (runSpans_mem_iff _ a0 k0).1 hrm
        simp only [mkPeriod] at ha hb
        simp only at ha hb hrs hbnd
        have hb2 : b = a0 + k0 - 1 := hb.symm
        have ha2 : a = a0 := ha.symm
        subst hb2
        rw [ha2]
        simp only [decide_eq_true_eq] at hrs
        exact ⟨(isMaxRunSpan_iff h thr hwf a0 k0 (by omega)).1 hspan,
          by omega⟩
      · rintro ⟨hrun, hmind⟩
        have hk1 : a ≤ b := hrun.1
        have hspan : IsMaxRunSpan (measMap thr h.s11_avg) a (b + 1 - a) := by
          apply (isMaxRunSpan_iff h thr hwf a (b + 1 - a) (by omega)).2
          rw [show a + (b + 1 - a) - 1 = b from by omega]
          exact hrun
        have hmem := (runSpans_mem_iff (measMap thr h.s11_avg) a
          (b + 1 - a)).2 hspan
        refine ⟨mkPeriod h (a, b + 1 - a), ?_, ?_, ?_⟩
        · apply List.mem_map_of_mem
          apply List.mem_filter_of_mem hmem
          simp only [decide_eq_true_eq]
          omega
        · rfl
        · simp only [mkPeriod]
          omega
    · rw [heq, List.pairwise_map]
      apply List.Pairwise.filter
      have hpw := runSpans_pairwise (measMap thr h.s11_avg) 0
      apply List.Pairwise.imp_of_mem ?_ hpw
      intro r1 r2 h1m h2m h12
      have hb1 := runSpans_bounds (measMap thr h.s11_avg) 0 r1 h1m
      simp only [mkPeriod]
      omega
    · intro p hp
      rw [heq] at hp
      obtain ⟨r, hrf, rfl⟩ := List.mem_map.1 hp
      have hrm := List.mem_of_mem_filter hrf
      have hbnd := runSpans_bounds _ 0 r hrm
      obtain ⟨a0, k0⟩ := r
      simp only at hbnd
      simp only [mkPeriod]
      refine ⟨by omega, ?_, ?_, trivial, trivial, trivial⟩
      · rw [window_length]
        omega
      · rw [show a0 + k0 - 1 + 1 - a0 = k0 from by omega]
  · intro h thr mind hlt
    unfold detect_measurement_periods
    rw [if_pos]
    right
    exact hlt

/-- Witness for C1 at a concrete input: the 16-sample buffer is well formed
and its single detected period is exactly the maximal run 5..12. -/
theorem C1_detect_periods_are_maximal_runs_witness :
    exHist.wf ∧
    ((∃ p ∈ detect_measurement_periods exHist (-8) 5,
        p.start_idx = 5 ∧ p.end_idx = 12) ↔
      (IsMaxRun exHist (-8) 5 12 ∧ 5 ≤ 12 + 1 - 5)) ∧
    detect_measurement_periods emptyHist (-8) 5 = [] := by
  have hwf : exHist.wf := by decide
  refine ⟨hwf, (C1_detect_periods_are_maximal_runs.1 exHist (-8) 5 hwf).1 5 12,
    C1_detect_periods_are_maximal_runs.2.2.2.1⟩

/-! ### C5, C6, C7, C3: the real-valued processing chain -/

theorem meanLinear_pos (l : List ℝ) (hne : l ≠ []) : 0 < meanLinear l := by
  unfold meanLinear
  apply div_pos
  · apply List.sum_pos
    · intro x hx
      obtain ⟨d, _, rfl⟩ := List.mem_map.1 hx
      exact Real.rpow_pos_of_pos (by norm_num) _
    · simpa using hne
  · have : 0 < l.length := List.length_pos.2 hne
    exact_mod_cast this

/-- C5: the power-domain RMS of a dB series equals `10·log10` of the
arithmetic mean of `10^(db/10)` over the series (that mean is always
positive for a non-empty series, so the `−100` guard never fires in the
real model); consequently a non-empty constant series of value `c` has RMS
exactly `c`; and the point-keyed `calculate_rms` agrees with
`calculate_rms_from_values` on the `db` series. -/
theorem C5_power_domain_rms :
    (∀ l : List ℝ, l ≠ [] →
      0 < meanLinear l ∧
      calculate_rms_from_values l = 10 * Real.logb 10 (meanLinear l))
    ∧ (∀ (n : Nat) (c : ℝ), 0 < n →
        calculate_rms_from_values (List.replicate n c) = c)
    ∧ (∀ pts : List SweepPoint,
        calculate_rms pts =
          calculate_rms_from_values (pts.map SweepPoint.db)) := by
  refine ⟨?_, ?_, ?_⟩
  · intro l hne
    have hpos := meanLinear_pos l hne
    refine ⟨hpos, ?_⟩
    unfold calculate_rms_from_values
    rw [if_neg hne, if_pos hpos]
  · intro n c hn
    have hne : List.replicate n c ≠ [] := by
      simp
      omega
    have hmean : meanLinear (List.replicate n c) = (10 : ℝ) ^ (c / 10) := by
      unfold meanLinear
      rw [List.map_replicate, List.sum_replicate, List.length_replicate,
        nsmul_eq_mul]
      have hn0 : (n : ℝ) ≠ 0 := by
        exact_mod_cast Nat.pos_iff_ne_zero.1 hn
      field_simp
    unfold calculate_rms_from_values
    rw [if_neg hne, if_pos (by rw [hmean]; positivity), hmean,
      Real.logb_rpow (by norm_num) (by norm_num)]
    ring
  · intro pts
    unfold calculate_rms calculate_rms_from_values
    by_cases hp : pts = []
    · subst hp
      simp
    · rw [if_neg hp,
        if_neg (show ¬pts.map SweepPoint.db = [] from by simpa using hp)]

/-- Witness for C5 at a concrete input: the constant series `[−7, −7, −7]`
has power-domain RMS exactly `−7`. -/
theorem C5_power_domain_rms_witness :
    calculate_rms_from_values (List.replicate 3 (-7 : ℝ)) = -7 :=
  C5_power_domain_rms.2.1 3 (-7) (by norm_num)

theorem mkSweepPoint_magnitude_pos (real imag : ℝ) (i : Nat) :
    0 < (mkSweepPoint i real imag).magnitude ↔ ¬(real = 0 ∧ imag = 0) := by
  show 0 < Real.sqrt (real ^ 2 + imag ^ 2) ↔ _
  rw [Real.sqrt_pos]
  constructor
  · intro hpos ⟨h1, h2⟩
    rw [h1, h2] at hpos
    norm_num at hpos
  · intro hne
    by_cases h1 : real = 0
    · have h2 : imag ≠ 0 := fun h2 => hne ⟨h1, h2⟩
      have := pow_two_pos_of_ne_zero h2
      nlinarith [sq_nonneg real]
    · have := pow_two_pos_of_ne_zero h1
      nlinarith [sq_nonneg imag]

/-- C6: every sweep point built from a parsed "real imag" line satisfies
`magnitude = √(real² + imag²)`, `db = 20·log10(magnitude)` when the
magnitude is positive and the `−999` sentinel otherwise (the zero-magnitude
line is handled without raising), and
`phase = atan2(imag, real)` converted to degrees; in particular `real = 1`,
`imag = 0` gives magnitude 1, db 0 and phase 0. -/
theorem C6_sweep_point_invariants :
    (∀ (i : Nat) (real imag : ℝ),
      (mkSweepPoint i real imag).magnitude = Real.sqrt (real ^ 2 + imag ^ 2)
      ∧ (mkSweepPoint i real imag).real = real
      ∧ (mkSweepPoint i real imag).imag = imag
      ∧ (0 < (mkSweepPoint i real imag).magnitude ↔ ¬(real = 0 ∧ imag = 0))
      ∧ (¬(real = 0 ∧ imag = 0) →
          (mkSweepPoint i real imag).db =
            20 * Real.logb 10 (mkSweepPoint i real imag).magnitude)
      ∧ (real = 0 → imag = 0 → (mkSweepPoint i real imag).db = -999)
      ∧ (mkSweepPoint i real imag).phase = atan2 imag real * 180 / Real.pi)
    ∧ ((mkSweepPoint 0 1 0).magnitude = 1 ∧ (mkSweepPoint 0 1 0).db = 0
        ∧ (mkSweepPoint 0 1 0).phase = 0)
    ∧ (mkSweepPoint 0 0 0).db = -999 := by
  refine ⟨?_, ⟨?_, ?_, ?_⟩, ?_⟩
  · intro i real imag
    refine ⟨rfl, rfl, rfl, mkSweepPoint_magnitude_pos real imag i, ?_, ?_,
      rfl⟩
    · intro hne
      have hpos : 0 < Real.sqrt (real ^ 2 + imag ^ 2) :=
        (mkSweepPoint_magnitude_pos real imag i).2 hne
      show (if 0 < Real.sqrt (real ^ 2 + imag ^ 2) then _ else _) = _
      rw [if_pos hpos]
      rfl
    · intro h1 h2
      subst h1
      subst h2
      show (if 0 < Real.sqrt ((0 : ℝ) ^ 2 + (0 : ℝ) ^ 2) then _ else _) = _
      rw [if_neg]
      norm_num
  · show Real.sqrt ((1 : ℝ) ^ 2 + (0 : ℝ) ^ 2) = 1
    norm_num
  · show (if 0 < Real.sqrt ((1 : ℝ) ^ 2 + (0 : ℝ) ^ 2) then
        20 * Real.logb 10 (Real.sqrt ((1 : ℝ) ^ 2 + (0 : ℝ) ^ 2))
      else -999) = 0
    rw [if_pos (by norm_num)]
    norm_num
  · show atan2 0 1 * 180 / Real.pi = 0
    unfold atan2
    rw [if_pos (by norm_num)]
    norm_num
  · show (if 0 < Real.sqrt ((0 : ℝ) ^ 2 + (0 : ℝ) ^ 2) then _ else _) = _
    rw [if_neg]
    norm_num

/-- Witness for C6 at a concrete input: the point parsed from `1 0` has a
positive magnitude, so its `db` is `20·log10(magnitude)`. -/
theorem C6_sweep_point_invariants_witness :
    (mkSweepPoint 0 1 0).db =
      20 * Real.logb 10 (mkSweepPoint 0 1 0).magnitude :=
  (C6_sweep_point_invariants.1 0 1 0).2.2.2.2.1 (by norm_num)

theorem quality_zero_of_short (s11 s21 : List SweepPoint)
    (hlt : s11.length < POINTS) : calculate_signal_quality s11 s21 = 0 := by
  unfold calculate_signal_quality
  rw [if_pos (Or.inr hlt)]

/-- C7: a polling cycle emits a sweep result (and appends to the history)
exactly when the parsed S11 point count equals `POINTS`; a cycle ending
with fewer parsed points emits nothing, leaves the history untouched and
reports signal quality 0. -/
theorem C7_emit_iff_complete (now : ℝ) (hist : HistData ℝ)
    (s11 s21 : List SweepPoint) :
    ((sweep_cycle_emit now hist s11 s21).1 ≠ none ↔ s11.length = POINTS)
    ∧ (s11.length = POINTS →
        sweep_cycle_emit now hist s11 s21 =
          (some (mkSummary s11 s21),
           appendHistory MAX_HISTORY_POINTS hist
             (sampleOfSummary now (mkSummary s11 s21)),
           calculate_signal_quality s11 s21))
    ∧ (s11.length < POINTS →
        sweep_cycle_emit now hist s11 s21 = (none, hist, 0)
        ∧ calculate_signal_quality s11 s21 = 0) := by
  have hemit : s11.length = POINTS →
      sweep_cycle_emit now hist s11 s21 =
        (some (mkSummary s11 s21),
         appendHistory MAX_HISTORY_POINTS hist
           (sampleOfSummary now (mkSummary s11 s21)),
         calculate_signal_quality s11 s21) := by
    intro heq
    have hne : s11 ≠ [] := by
      intro h0
      rw [h0] at heq
      simp [POINTS] at heq
    unfold sweep_cycle_emit
    rw [if_pos ⟨hne, heq⟩]
  refine ⟨⟨?_, ?_⟩, hemit, ?_⟩
  · intro hne
    by_contra hlen
    unfold sweep_cycle_emit at hne
    rw [if_neg (fun hc => hlen hc.2)] at hne
    exact hne rfl
  · intro heq
    rw [hemit heq]
    simp
  · intro hlt
    constructor
    · unfold sweep_cycle_emit
      rw [if_neg (fun hc => by omega)]
    · exact quality_zero_of_short s11 s21 hlt

/-- Witness for C7 at a concrete input: an empty parsed S11 list emits no
result, leaves the history unchanged and reports quality 0. -/
theorem C7_emit_iff_complete_witness :
    sweep_cycle_emit 0 emptyHistR [] [] = (none, emptyHistR, 0)
    ∧ calculate_signal_quality [] [] = 0 :=
  (C7_emit_iff_complete 0 emptyHistR [] []).2.2 (by norm_num [POINTS])

/-- C3 counterexample: the claim says a non-empty S11 list shorter than
`POINTS` still receives its proportional completeness share, but the code
returns quality 0 for any such list: on a 50-point list the code gives 0
while the claimed formula gives at least `2000/101 > 0`. -/
theorem C3_counterexample_short_list_gets_zero :
    calculate_signal_quality pts50 [] = 0 ∧
    spec_signal_quality pts50 [] ≠ 0 := by
  have hlen : pts50.length = 50 := by
    simp [pts50]
  constructor
  · apply quality_zero_of_short
    rw [hlen]
    norm_num [POINTS]
  · unfold spec_signal_quality
    rw [hlen]
    have hs21 : ¬(POINTS ≤ ([] : List SweepPoint).length) := by
      simp [POINTS]
    rw [if_neg hs21]
    have hcompl : min (40 : ℝ) (((50 : Nat) : ℝ) / ((POINTS : Nat) : ℝ) * 40) =
        2000 / 101 := by
      rw [min_eq_right]
      · norm_num [POINTS]
      · norm_num [POINTS]
    rw [hcompl]
    have hstr : (0 : ℝ) ≤ max 0 (min 30 ((calculate_rms pts50 + 50) / 50 * 30)) :=
      le_max_left 0 _
    have hsum : (2000 : ℝ) / 101 ≤ 2000 / 101 +
        max 0 (min 30 ((calculate_rms pts50 + 50) / 50 * 30)) + 0 := by
      linarith
    have hmax : (2000 : ℝ) / 101 ≤ max 0 (2000 / 101 +
        max 0 (min 30 ((calculate_rms pts50 + 50) / 50 * 30)) + 0) :=
      le_trans hsum (le_max_right 0 _)
    have hmin : (0 : ℝ) < min 100 (max 0 (2000 / 101 +
        max 0 (min 30 ((calculate_rms pts50 + 50) / 50 * 30)) + 0)) := by
      apply lt_min
      · norm_num
      · calc (0 : ℝ) < 2000 / 101 := by norm_num
          _ ≤ _ := hmax
    exact ne_of_gt hmin

/-- C3 as amended: the code returns quality 0 whenever the S11 list is
shorter than `POINTS` (no proportional completeness share), and the claimed
clamp formula holds exactly when the list has exactly `POINTS` entries. -/
theorem C3_amended_signal_quality (s11 s21 : List SweepPoint) :
    (s11.length < POINTS → calculate_signal_quality s11 s21 = 0)
    ∧ (s11.length = POINTS →
        calculate_signal_quality s11 s21 = spec_signal_quality s11 s21) := by
  refine ⟨quality_zero_of_short s11 s21, ?_⟩
  intro heq
  have hne : s11 ≠ [] := by
    intro h0
    rw [h0] at heq
    simp [POINTS] at heq
  unfold calculate_signal_quality spec_signal_quality
  rw [if_neg (by push_neg; exact ⟨hne, by omega⟩)]
  rw [heq]
  have hcompl : ((POINTS : Nat) : ℝ) / ((POINTS : Nat) : ℝ) * 40 = 40 := by
    norm_num [POINTS]
  rw [hcompl]
  have hmin40 : min (40 : ℝ) 40 = 40 := min_self 40
  rw [hmin40]
  by_cases hp : POINTS ≤ s21.length
  · have hs21ne : s21 ≠ [] := by
      have : 0 < s21.length := by
        have : (0 : Nat) < POINTS := by norm_num [POINTS]
        omega
      exact List.ne_nil_of_length_pos this
    rw [if_pos ⟨hs21ne, hp⟩, if_pos hp]
  · rw [if_neg (fun hc => hp hc.2), if_neg hp]

/-- Witness for the amended C3 theorem: on a complete 101-point list the
code's quality equals the claimed clamp formula. -/
theorem C3_amended_signal_quality_witness :
    calculate_signal_quality pts101 [] = spec_signal_quality pts101 [] :=
  (C3_amended_signal_quality pts101 []).2 (by simp [pts101])

end DrcAten
